import Mathlib

/-!
Verification of the otter-grader notebook-to-grading-bundle compiler.

The Python sources under `otter/assign/tests.py`, `otter/assign/utils.py` and
`otter/containers.py` are shallowly embedded below.  Python strings become
`String`, Python lists become `List`, mutation is made explicit (state
threading, or an explicit heap for the aliasing claim), and fallible code
returns `Except`/`Option`.  The cell accessor `get_source` lives outside the
provided sources; per the spec a cell carries its source as a list of lines, so
cells are modelled as records holding that list directly.
-/

namespace Otter

/-! ### Python string primitives

Lean's own `String.startsWith`, `trim`, `splitOn`, … are implemented on byte
positions and do not reduce inside the kernel, so the Python string
operations are modelled directly on character lists (every string in scope is
ASCII). -/

/-- Python regex `\s` / `str.isspace` membership (ASCII fragment). -/
def isPyWs (c : Char) : Bool :=
  c = ' ' || c = '\t' || c = '\n' || c = '\r' || c = '\x0c' || c = '\x0b'

/-- Python `s.startswith(pre)`. -/
def pyStartsWith (s pre : String) : Bool :=
  pre.data.isPrefixOf s.data

/-- Python `s.endswith(suf)`. -/
def pyEndsWith (s suf : String) : Bool :=
  suf.data.isSuffixOf s.data

/-- Python `s.rstrip()`. -/
def pyRstrip (s : String) : String :=
  String.mk ((s.data.reverse.dropWhile isPyWs).reverse)

/-- Python `s.strip()`. -/
def pyStrip (s : String) : String :=
  String.mk (((s.data.dropWhile isPyWs).reverse.dropWhile isPyWs).reverse)

/-- Python `s.lower()` (ASCII). -/
def pyLower (s : String) : String :=
  String.mk (s.data.map Char.toLower)

/-- Substring occurrence on character lists. -/
def containsSub (pat : List Char) : List Char → Bool
  | [] => pat.isEmpty
  | c :: rest => pat.isPrefixOf (c :: rest) || containsSub pat rest

/-- Python `pat in s`. -/
def strContains (s pat : String) : Bool :=
  containsSub pat.data s.data

/-- Python `c in s` for a single character. -/
def pyContainsChar (s : String) (c : Char) : Bool :=
  s.data.contains c

/-- Python `s.split(sep)` for a one-character separator. -/
def splitOnChar (sep : Char) : List Char → List (List Char)
  | [] => [[]]
  | c :: rest =>
    match splitOnChar sep rest with
    | [] => [[]]
    | g :: gs => if c = sep then [] :: g :: gs else (c :: g) :: gs

/-- Python `s.split('\n')`. -/
def pySplitLines (s : String) : List String :=
  (splitOnChar '\n' s.data).map String.mk

/-- Python `line.rstrip().split(":")[-1].strip()`, the value extraction used
for every `key: value` metadata line in `read_test`: everything after the
last colon (the whole string when there is none), stripped. -/
def lastColonField (r : String) : String :=
  pyStrip (String.mk ((r.data.reverse.takeWhile (fun c => c ≠ ':')).reverse))

/-- Model of an `nbformat` output field that may be a plain string or a list of
strings (`text` and `data["text/plain"]`). -/
inductive PyText where
  | str : String → PyText
  | list : List String → PyText
deriving DecidableEq

/-- One entry of a cell's `outputs` list: the `text` field and the
`data["text/plain"]` field, each possibly absent. -/
structure NbOutput where
  text : Option PyText
  textPlain : Option PyText
deriving DecidableEq

/-- A notebook code cell as consumed by `read_test`: its source lines (the
`get_source` result) and its outputs. -/
structure NbCell where
  source : List String
  outputs : List NbOutput
deriving DecidableEq

/-- Python `''.join(o.get('text', ''))`: joining a string gives the string
itself, joining a list concatenates it, a missing field gives `''`. -/
def joinedText (t : Option PyText) : String :=
  match t with
  | none => ""
  | some (PyText.str s) => s
  | some (PyText.list l) => String.join l

/-- The `data["text/plain"]` contribution in `read_test`: a truthy list
contributes its first element, a truthy string contributes itself, falsy
values (missing, `''`, `[]`) contribute nothing. -/
def plainTextPart (r : Option PyText) : String :=
  match r with
  | none => ""
  | some (PyText.list []) => ""
  | some (PyText.list (x :: _)) => x
  | some (PyText.str "") => ""
  | some (PyText.str s) => s

/-- The `output` accumulation loop at the top of `read_test`. -/
def cellOutputText (outputs : List NbOutput) : String :=
  outputs.foldl (fun acc o => acc ++ joinedText o.text ++ plainTextPart o.textPlain) ""

/-- The mutable locals of `read_test`'s metadata loop. -/
structure MetaState where
  hidden : Bool
  points : Option String
  success_message : Option String
  failure_message : Option String
deriving DecidableEq

/-- The `for i, line in enumerate(lines)` loop of `read_test`, with
`has_metadata` and the four metadata locals threaded explicitly.  `break`
becomes returning the current state; the `raise ValueError` becomes
`Except.error`. -/
def parseTestMeta : List String → Bool → MetaState → Except String MetaState
  | [], _, m => Except.ok m
  | line :: rest, hm, m =>
    let r := pyRstrip line
    if pyEndsWith r "# END TEST" then Except.ok m
    else if pyEndsWith r "# BEGIN TEST" then parseTestMeta rest true m
    else if !hm then Except.ok m
    else if pyStartsWith r "points" then
      parseTestMeta rest hm { m with points := some (lastColonField r) }
    else if pyStartsWith r "hidden" then
      parseTestMeta rest hm
        { m with hidden :=
            strContains (pyLower (lastColonField r)) "true"
            || pyLower (lastColonField r) == "true" }
    else if pyStartsWith r "success_message" then
      parseTestMeta rest hm { m with success_message := some (lastColonField r) }
    else if pyStartsWith r "failure_message" then
      parseTestMeta rest hm { m with failure_message := some (lastColonField r) }
    else if r.length ≤ 1 then parseTestMeta rest hm m
    else if !(pyContainsChar r ':') then Except.error "Error in test metadata"
    else parseTestMeta rest hm m

/-- The `Test` named tuple of `otter/assign/tests.py`. -/
structure Test where
  input : String
  output : String
  hidden : Bool
  points : Option String
  success_message : Option String
  failure_message : Option String
deriving DecidableEq

/-- `read_test` from `otter/assign/tests.py`.  Indexing an empty source raises
(`get_source(cell)[0]`), modelled as an error. -/
def read_test (cell : NbCell) : Except String Test :=
  match cell.source with
  | [] => Except.error "IndexError: list index out of range"
  | first :: rest =>
    let hidden0 := strContains (pyLower first) "hidden"
    let output := cellOutputText cell.outputs
    match parseTestMeta (first :: rest) false
        { hidden := hidden0, points := none,
          success_message := none, failure_message := none } with
    | Except.error e => Except.error e
    | Except.ok m =>
      Except.ok
        { input := String.intercalate "\n" rest, output := output,
          hidden := m.hidden, points := m.points,
          success_message := m.success_message,
          failure_message := m.failure_message }

/-- A metadata line that drives `read_test` into its `raise ValueError` branch
when `has_metadata` is set: not a terminator, not a `BEGIN` marker, not a
recognized key line, longer than one character after `rstrip`, and without a
colon. -/
def malformedLine (line : String) : Bool :=
  let r := pyRstrip line
  !(pyEndsWith r "# END TEST") && !(pyEndsWith r "# BEGIN TEST")
    && !(pyStartsWith r "points") && !(pyStartsWith r "hidden")
    && !(pyStartsWith r "success_message") && !(pyStartsWith r "failure_message")
    && decide (1 < r.length) && !(pyContainsChar r ':')

/-- A line that terminates the metadata block (`rstrip` ends with
`# END TEST`). -/
def isEndLine (line : String) : Bool :=
  pyEndsWith (pyRstrip line) "# END TEST"

/-! ### The doctest converter (`str_to_doctest` in `otter/assign/utils.py`) -/

/-- Python character class membership for `[\s\w]` (ASCII fragment): word
characters and whitespace. -/
def isWordOrWs (c : Char) : Bool :=
  c.isAlphanum || c = '_' || c = ' ' || c = '\t' || c = '\n' || c = '\r'
    || c = '\x0c' || c = '\x0b'

/-- Model of `re.match(r"^except[\s\w]*:", line)`: after the literal `except`,
a run of word/whitespace characters followed by a colon.  Since `:` is not in
the class, the greedy run needs no backtracking: the first character outside
the class must be the colon. -/
def exceptClause (line : String) : Bool :=
  if pyStartsWith line "except" then
    match ((line.drop 6).data.dropWhile isWordOrWs) with
    | ':' :: _ => true
    | _ => false
  else false

/-- One character of the bracket-tracking loop of `str_to_doctest`: push on an
opening bracket, pop on a closing one (`opens.pop()` on an empty list raises,
modelled as `none`), ignore everything else. -/
def bracketStep (acc : Option (List Char)) (c : Char) : Option (List Char) :=
  match acc with
  | none => none
  | some st =>
    if c = '(' || c = '[' || c = '{' then some (st ++ [c])
    else if c = ')' || c = ']' || c = '}' then
      match st with
      | [] => none
      | _ => some st.dropLast
    else some st

/-- The `for c in line` bracket-tracking loop of `str_to_doctest`. -/
def updateOpens (opens : List Char) (line : String) : Option (List Char) :=
  line.data.foldl bracketStep (some opens)

/-- The `if`/`elif` cascade of `str_to_doctest` deciding whether the current
line continues the previous statement, as a single disjunction (an `elif`
chain over boolean tests).  `opens` is the bracket stack *before* scanning the
line (`in_statement` is computed first in the source), `lines` is the
accumulator of already-emitted lines (`lines[-1].strip()` is its last
element, trimmed). -/
def contLine (lines : List String) (opens : List Char) (line : String) : Bool :=
  pyStartsWith line " " || pyStartsWith line "\t"
    || exceptClause line || pyStartsWith line "elif " || pyStartsWith line "else:"
    || pyStartsWith line "finally:"
    || (decide (0 < lines.length) && pyEndsWith (pyStrip (lines.getLastD "")) "\\")
    || !opens.isEmpty

/-- `str_to_doctest` from `otter/assign/utils.py`: recursion over the code
lines, accumulating converted lines, threading the bracket stack.  The Python
`code_lines.pop(0)` becomes structural recursion; `opens.pop()` on an empty
stack raises, giving `none`. -/
def str_to_doctest : List String → List String → List Char → Option (List String)
  | [], lines, _ => some lines
  | line :: rest, lines, opens =>
    match updateOpens opens line with
    | none => none
    | some opens' =>
      str_to_doctest rest
        (lines ++ [(if contLine lines opens line then "... " else ">>> ") ++ line])
        opens'

/-- Specification-side restatement of the converter (for claim C5): computes,
per input line, whether it receives the continuation marker, from the
previously emitted line and the bracket stack at the start of the line. -/
def doctest_marks_spec (prev : Option String) (opens : List Char) :
    List String → Option (List Bool)
  | [] => some []
  | line :: rest =>
    let cont := pyStartsWith line " " || pyStartsWith line "\t"
      || exceptClause line || pyStartsWith line "elif " || pyStartsWith line "else:"
      || pyStartsWith line "finally:"
      || (match prev with | some p => pyEndsWith (pyStrip p) "\\" | none => false)
      || !opens.isEmpty
    match updateOpens opens line with
    | none => none
    | some opens' =>
      match doctest_marks_spec (some ((if cont then "... " else ">>> ") ++ line)) opens' rest with
      | none => none
      | some ms => some (cont :: ms)

/-- All characters of a line sequence in order (for the bracket-balance
condition of claim C9). -/
def bracketChars (lines : List String) : List Char :=
  (lines.map String.data).flatten

/-- Number of opening brackets in a character list. -/
def openCount (cs : List Char) : Nat :=
  cs.countP (fun c => c = '(' || c = '[' || c = '{')

/-- Number of closing brackets in a character list. -/
def closeCount (cs : List Char) : Nat :=
  cs.countP (fun c => c = ')' || c = ']' || c = '}')

/-! ### The suite/case assembler (`gen_case`, `gen_suite`, `gen_test_cell`) -/

/-- Numeric value of a run of decimal digits. -/
def digitsVal (cs : List Char) : Nat :=
  cs.foldl (fun a c => a * 10 + (c.toNat - 48)) 0

/-- Model of the Python `float` builtin on the decimal literals produced by
test metadata: optional surrounding whitespace, optional sign, digits with an
optional fractional part.  Other inputs raise `ValueError`, modelled as
`none`.  (Exponents, `inf` and `nan` are not modelled; no claim exercises
them.) -/
def pyFloat (s : String) : Option Rat :=
  let t := pyStrip s
  let (sign, u) : Rat × String :=
    if pyStartsWith t "-" then (-1, t.drop 1)
    else if pyStartsWith t "+" then (1, t.drop 1) else (1, t)
  match (splitOnChar '.' u.data).map String.mk with
  | [a] =>
    if 0 < a.length ∧ a.data.all Char.isDigit then some (sign * digitsVal a.data)
    else none
  | [a, b] =>
    if 0 < a.length + b.length ∧ a.data.all Char.isDigit ∧ b.data.all Char.isDigit then
      some (sign * ((digitsVal a.data : Rat) + (digitsVal b.data : Rat) / (10 ^ b.length)))
    else none
  | _ => none

/-- One OK test case as built by `gen_case` (the `locked` key is always
`False` there). -/
structure OkCase where
  code : String
  hidden : Bool
  points : Option Rat
  success_message : Option String
  failure_message : Option String
  locked : Bool
deriving DecidableEq

/-- The semicolon-inserting part of `gen_case`'s loop: line `i` (for
`i < n - 1`) receives a trailing `;` when the next line starts a new statement
(`>>>`), the current line's trimmed content is longer than 3 characters, and
it does not end with a continuation backslash.  Each mutation touches only
index `i` and later iterations read only larger indices, so the loop is a pure
pointwise rewrite. -/
def addSemicolons : List String → List String
  | [] => []
  | [x] => [x]
  | x :: y :: rest =>
    (if pyStartsWith y ">>>" && decide (3 < (pyStrip x).length)
        && !(pyEndsWith (pyStrip x) "\\")
     then x ++ ";" else x) :: addSemicolons (y :: rest)

/-- The `new_start_index` computation of `gen_case`: the last `i` in
`range(len(code_lines) - 1)` whose line `rstrip`-ends with `# END TEST`
(`none` models the initial `-1`). -/
def lastEndIdx (ls : List String) : Option Nat :=
  (List.range (ls.length - 1)).foldl
    (fun acc i => if pyEndsWith (pyRstrip (ls.getD i "")) "# END TEST" then some i else acc)
    none

/-- `gen_case` from `otter/assign/tests.py`.  `str_to_doctest` may raise on an
unbalanced bracket and `float(test.points)` may raise on a bad string; both
are modelled as errors. -/
def gen_case (test : Test) : Except String OkCase := do
  let codeLines0 ←
    match str_to_doctest (pySplitLines test.input) [] [] with
    | some r => Except.ok r
    | none => Except.error "IndexError: pop from empty list"
  let start := match lastEndIdx codeLines0 with
    | some i => i + 1
    | none => 0
  let codeLines1 := (addSemicolons codeLines0).drop start
  let codeLines2 := codeLines1 ++ [test.output]
  let points ←
    match test.points with
    | none => Except.ok (none : Option Rat)
    | some s =>
      match pyFloat s with
      | some q => Except.ok (some q)
      | none => Except.error ("ValueError: could not convert string to float: " ++ s)
  Except.ok
    { code := String.intercalate "\n" codeLines2, hidden := test.hidden,
      points := points, success_message := test.success_message,
      failure_message := test.failure_message, locked := false }

/-- An OK test suite as built by `gen_suite` (the dict key `type` is the field
`suiteType`). -/
structure OkSuite where
  cases : List OkCase
  scored : Bool
  setup : String
  teardown : String
  suiteType : String
deriving DecidableEq

/-- `gen_suite` from `otter/assign/tests.py`. -/
def gen_suite (tests : List Test) : Except String OkSuite := do
  let cases ← tests.mapM gen_case
  Except.ok
    { cases := cases, scored := true, setup := "", teardown := "",
      suiteType := "doctest" }

/-- The `points` metadata of a question: a number, a `{'each': n}` dict (with
`each` possibly absent), or an explicit per-test list. -/
inductive QPoints where
  | num : Rat → QPoints
  | dict : Option Rat → QPoints
  | list : List Rat → QPoints
deriving DecidableEq

/-- Question metadata consumed by `gen_test_cell`: its name and the optional
`points` entry (`question.get('points', 1)` defaults when absent). -/
structure Question where
  name : String
  points : Option QPoints
deriving DecidableEq

/-- The `points` value stored in a serialized test file: a number or a list. -/
inductive TFPoints where
  | num : Rat → TFPoints
  | list : List Rat → TFPoints
deriving DecidableEq

/-- One serialized test artifact (the `test` dict written by `write_test`). -/
structure TestFile where
  name : String
  points : TFPoints
  suites : List OkSuite
deriving DecidableEq

/-- The generated check cell: its source plus the `editable`/`deletable`
metadata touched by `lock`. -/
structure CheckCell where
  source : List String
  editable : Bool
  deletable : Bool
deriving DecidableEq

/-- `lock` from `otter/assign/utils.py`. -/
def lock (c : CheckCell) : CheckCell :=
  { c with editable := false, deletable := false }

/-- `gen_test_cell` from `otter/assign/tests.py`: builds the check cell and
the test artifact registered under the question's name, resolving the points
policy (number as-is, dict multiplied by the case count, list checked against
the test count). -/
def gen_test_cell (question : Question) (tests : List Test) :
    Except String (CheckCell × TestFile) := do
  let cell0 : CheckCell :=
    { source := ["grader.check(\"" ++ question.name ++ "\")"],
      editable := true, deletable := true }
  let suite ← gen_suite tests
  let points ←
    match question.points.getD (QPoints.num 1) with
    | QPoints.num q => Except.ok (TFPoints.num q)
    | QPoints.dict each => Except.ok (TFPoints.num ((each.getD 1) * suite.cases.length))
    | QPoints.list l =>
      if l.length ≠ tests.length then
        Except.error ("Error in question " ++ question.name
          ++ ": length of \x27points\x27 is " ++ toString l.length
          ++ " but there are " ++ toString tests.length ++ " tests")
      else Except.ok (TFPoints.list l)
  let tf : TestFile := { name := question.name, points := points, suites := [suite] }
  Except.ok (lock cell0, tf)

/-! ### Hidden-test redaction (`remove_hidden_tests_from_dir`) -/

/-- Python `l.pop(i)` restricted to its effect on the list: fails
(`IndexError`) out of range, otherwise removes index `i`. -/
def popAt {α : Type} (l : List α) (i : Nat) : Option (List α) :=
  if i < l.length then some (l.eraseIdx i) else none

/-- Python `enumerate` starting at `n`. -/
def enumFromN {α : Type} (n : Nat) : List α → List (Nat × α)
  | [] => []
  | a :: as => (n, a) :: enumFromN (n + 1) as

/-- Python `list(enumerate(l))`. -/
def pyEnumerate {α : Type} (l : List α) : List (Nat × α) :=
  enumFromN 0 l

/-- One iteration of the redaction loop: on a hidden case, pop the case index
from the current case list and, when the artifact's points value is a list,
pop the same index there. -/
def redactStep (acc : Option (List OkCase × TFPoints)) (p : Nat × OkCase) :
    Option (List OkCase × TFPoints) := do
  let (cs, pts) ← acc
  if p.2.hidden then do
    let cs' ← popAt cs p.1
    let pts' ←
      match pts with
      | TFPoints.list l => (popAt l p.1).map TFPoints.list
      | q => some q
    some (cs', pts')
  else some (cs, pts)

/-- The `for i, case in list(enumerate(suite['cases']))[::-1]` loop of
`remove_hidden_tests_from_dir`, for one suite: iterate the original
enumeration in reverse index order, mutating the case list and the shared
points value. -/
def redactSuiteCases (cases : List OkCase) (pts : TFPoints) :
    Option (List OkCase × TFPoints) :=
  (pyEnumerate cases).reverse.foldl redactStep (some (cases, pts))

/-- One suite of the `for suite in test['suites']` loop: redact the suite's
cases, threading the artifact's shared points value. -/
def redactSuitesStep (acc : Option (List OkSuite × TFPoints)) (s : OkSuite) :
    Option (List OkSuite × TFPoints) := do
  let (ss, p) ← acc
  let (cs', p') ← redactSuiteCases s.cases p
  some (ss ++ [{ s with cases := cs' }], p')

/-- The per-artifact body of `remove_hidden_tests_from_dir`: every suite is
redacted in order, the artifact's points value threading through all of
them. -/
def remove_hidden_from_test (tf : TestFile) : Option TestFile := do
  let (suites', pts') ←
    tf.suites.foldl redactSuitesStep (some (([] : List OkSuite), tf.points))
  some { tf with suites := suites', points := pts' }

/-- Model of `pathlib.PurePath.suffix` for a plain file name: `name[i:]` for
the last index `i` of `.` when `0 < i < len(name) - 1`, else the empty
string. -/
def pathSuffix (name : String) : String :=
  let cs := name.data
  match ((List.range cs.length).filter (fun i => cs.getD i ' ' = '.')).getLast? with
  | none => ""
  | some i => if 0 < i ∧ i + 1 < cs.length then String.mk (cs.drop i) else ""

/-- The per-directory-entry behavior of `remove_hidden_tests_from_dir`:
`__init__.py` and non-`.py` entries are skipped unchanged, every other entry
is loaded, redacted and rewritten.  The `exec`/`pprint` round trip through the
file system is modelled as the identity on the artifact value (the spec
requires exact round-tripping). -/
def processFile (p : String × TestFile) : Option (String × TestFile) :=
  if p.1 = "__init__.py" ∨ pathSuffix p.1 ≠ ".py" then some p
  else (remove_hidden_from_test p.2).map (fun tf => (p.1, tf))

/-- `remove_hidden_tests_from_dir` from `otter/assign/tests.py`, over a
directory modelled as an ordered list of named artifacts, processed
sequentially like the `for f in test_dir.iterdir()` loop. -/
def remove_hidden_tests_from_dir :
    List (String × TestFile) → Option (List (String × TestFile))
  | [] => some []
  | p :: rest => do
    let q ← processFile p
    let qs ← remove_hidden_tests_from_dir rest
    some (q :: qs)

/-- The lockstep removal described by the redaction contract: keep each points
entry exactly when the case at the same index is not hidden. -/
def lockstepFilter (l : List Rat) (cases : List OkCase) : List Rat :=
  ((l.zip cases).filter (fun q => !q.2.hidden)).map Prod.fst

/-! ### The ignore-cell classifier (`is_ignore_cell` in `otter/assign/utils.py`) -/

/-- Greedy `\s*`. -/
def dropWs (cs : List Char) : List Char :=
  cs.dropWhile isPyWs

/-- Case-insensitive literal match, returning the rest of the input. -/
def stripCI : List Char → List Char → Option (List Char)
  | [], cs => some cs
  | _ :: _, [] => none
  | p :: ps, c :: cs => if c.toLower = p.toLower then stripCI ps cs else none

/-- First alternative of the ignore marker regex: `##\s*ignore\s*##\s*` as a
prefix.  Each `\s*` is followed by a non-whitespace literal, so the greedy
scan needs no backtracking. -/
def ignoreBranch1 (cs : List Char) : Bool :=
  match cs with
  | '#' :: '#' :: t =>
    match stripCI "ignore".data (dropWs t) with
    | some u =>
      match dropWs u with
      | '#' :: '#' :: _ => true
      | _ => false
    | none => false
  | _ => false

/-- Second alternative of the ignore marker regex: `#\s*ignore\s*` as a
prefix. -/
def ignoreBranch2 (cs : List Char) : Bool :=
  match cs with
  | '#' :: t => (stripCI "ignore".data (dropWs t)).isSome
  | _ => false

/-- Model of `re.match(r"(##\s*ignore\s*##\s*|#\s*ignore\s*)", line,
flags=re.IGNORECASE)` viewed as a boolean: the line has a prefix matching
either alternative. -/
def ignoreRegexMatch (line : String) : Bool :=
  ignoreBranch1 line.data || ignoreBranch2 line.data

/-- `is_ignore_cell` from `otter/assign/utils.py` as a function of the cell's
source lines: false for an empty source, otherwise the regex applied to the
first line. -/
def is_ignore_cell (source : List String) : Bool :=
  match source with
  | [] => false
  | l :: _ => ignoreRegexMatch l

/-- A case variant of the word `ignore`. -/
def caseOfIgnore (ig : List Char) : Prop :=
  ig.map Char.toLower = "ignore".data

/-- A run of regex whitespace. -/
def allPyWs (w : List Char) : Prop :=
  ∀ c ∈ w, isPyWs c = true

/-- Specification-side grammar of the ignore marker (claim C7): the first
line decomposes as `## ws ignore ws ## anything` or `# ws ignore anything`,
with `ignore` case-insensitive. -/
def ignore_marker_spec (l : String) : Prop :=
  (∃ w1 ig w2 rest, l.data = '#' :: '#' :: (w1 ++ ig ++ w2 ++ '#' :: '#' :: rest)
      ∧ allPyWs w1 ∧ caseOfIgnore ig ∧ allPyWs w2)
  ∨ (∃ w1 ig rest, l.data = '#' :: (w1 ++ ig ++ rest) ∧ allPyWs w1 ∧ caseOfIgnore ig)

/-! ### An explicit-heap model of `str_to_doctest` (claim C10)

Python lists are mutable objects: `code_lines.pop(0)` empties the caller's
list one element per recursive call, while `lines + [...]` allocates a fresh
list at every level and the base case returns the current `lines` object.  To
state these aliasing facts, list objects live in an explicit heap: a reference
is an index, allocation appends. -/

/-- A reference to a Python list object. -/
abbrev HRef := Nat

/-- The heap: reference `r` holds the list at index `r`. -/
abbrev HHeap := List (List String)

/-- Dereference (a dangling reference yields `[]`, never created by the
embedding). -/
def hGet (h : HHeap) (r : HRef) : List String :=
  h.getD r []

/-- In-place update of one list object. -/
def hSet (h : HHeap) (r : HRef) (v : List String) : HHeap :=
  h.set r v

/-- `str_to_doctest` over the heap, with fuel bounding the recursion depth
(the wrapper supplies the exact length of the `code_lines` object, which
shrinks by one per call, so the fuel never runs out).  Each call pops the head
of `code_lines` in place, allocates `lines + [marker + line]` as a fresh
object (`h1 ++ [...]`, new reference `h1.length`) and recurses on it; the base
case returns the current `lines` reference. -/
def str_to_doctest_heap_go :
    Nat → HHeap → HRef → HRef → List Char → Option (HRef × HHeap)
  | fuel, h, clr, lsr, opens =>
    match hGet h clr, fuel with
    | [], _ => some (lsr, h)
    | _ :: _, 0 => none
    | line :: rest, fuel' + 1 =>
      let h1 := hSet h clr rest
      match updateOpens opens line with
      | none => none
      | some opens' =>
        let cur := hGet h1 lsr
        let out := (if contLine cur opens line then "... " else ">>> ") ++ line
        str_to_doctest_heap_go fuel' (h1 ++ [cur ++ [out]]) clr h1.length opens'

/-- Entry point of the heap model: run with exactly enough fuel. -/
def str_to_doctest_heap (h : HHeap) (clr lsr : HRef) (opens : List Char) :
    Option (HRef × HHeap) :=
  str_to_doctest_heap_go (hGet h clr).length h clr lsr opens

/-! ### Batch grading orchestration (`grade_assignments` in `otter/containers.py`)

The function shells out to `docker` through `subprocess.run` and reads the
grades CSV with pandas.  The outside world is an oracle: `run` maps a command
line to its captured result, `readCsv` maps a path to a data frame or a read
failure.  The embedding returns the Python result (or the raised exception's
message) together with the trace of commands actually executed, in order.
`verbose` only controls `print` calls and is omitted. -/

/-- The fields of `subprocess.CompletedProcess` that `grade_assignments`
stores (streams already decoded). -/
structure CommandResult where
  stdout : String
  stderr : String
  returncode : Int
deriving DecidableEq

/-- The grades data frame: its `manual` column and the rest of its content,
opaque. -/
structure DataFrame where
  manual : List String
  body : String
deriving DecidableEq

/-- The external world: process execution and CSV reading. -/
structure World where
  run : List String → CommandResult
  readCsv : String → Except String DataFrame

/-- The `for command in all_commands` check at the end of
`grade_assignments`: raise on the first command whose decoded stderr is
non-empty.  The exception's arguments (`"Error running ", command,
" failed with error: ", stderr`) are modelled as one concatenated message,
with the command rendered as its space-joined argument list. -/
def checkCommands : List (List String × CommandResult) → Except String Unit
  | [] => Except.ok ()
  | (c, res) :: rest =>
    if res.stderr ≠ "" then
      Except.error ("Error running " ++ String.intercalate " " c
        ++ " failed with error: " ++ res.stderr)
    else checkCommands rest

/-- Word/dash character class `[\w\-_]` of the PDF-name regex. -/
def isWordDash (c : Char) : Bool :=
  c.isAlphanum || c = '_' || c = '-'

/-- Lazy part of `re.search(r"\/([\w\-\_]*?\.pdf)", pdf)`: at a fixed start,
the shortest word/dash run followed by `.pdf`; the group includes the
`.pdf`. -/
def pdfTail : List Char → Option (List Char)
  | '.' :: 'p' :: 'd' :: 'f' :: _ => some ['.', 'p', 'd', 'f']
  | c :: rest => if isWordDash c then (pdfTail rest).map (c :: ·) else none
  | [] => none

/-- `re.search` scanning: leftmost position whose character is `/` and whose
remainder admits a (lazy) group match; returns group 1. -/
def pdfSearch : List Char → Option String
  | [] => none
  | c :: rest =>
    match (if c = '/' then (pdfTail rest).map String.mk else none) with
    | some s => some s
    | none => pdfSearch rest

/-- The `for pdf in df["manual"]` copy loop of the PDF branch: building each
copy command evaluates `re.search(...)[1]` first, so a non-matching path
raises before any command is issued for it.  Returns the commands run and the
error, if any. -/
def copyPdfLoop (w : World) (container_id : String) :
    List String → List (List String) × Option String
  | [] => ([], none)
  | pdf :: rest =>
    match pdfSearch pdf.data with
    | none => ([], some "TypeError: \x27NoneType\x27 object is not subscriptable")
    | some nm =>
      let cmd := ["docker", "cp", container_id ++ ":" ++ pdf,
        "./manual_submissions/" ++ nm]
      let _ := w.run cmd
      let (ts, e) := copyPdfLoop w container_id rest
      (cmd :: ts, e)

/-- `grade_assignments` from `otter/containers.py`.  Returns the grades data
frame or the raised exception's message, plus the ordered trace of commands
executed.  The container id is `launch.stdout[:-1]`; commands are checked for
a non-empty stderr only after the container has been stopped and removed, and
only the commands collected in `all_commands` are checked (the PDF-branch
commands are not). -/
def grade_assignments (w : World) (tests_dir notebooks_dir id image : String)
    (unfiltered_pdfs filtered_pdfs : Bool) (reqs : Option String)
    (scripts : Bool) : Except String DataFrame × List (List String) :=
  let launchCmd := ["docker", "run", "-d", "-it", image]
  let launch := w.run launchCmd
  let container_id := launch.stdout.dropRight 1
  let copyCmd := ["docker", "cp", notebooks_dir, container_id ++ ":/home/notebooks/"]
  let copy := w.run copyCmd
  let testsCmd := ["docker", "cp", tests_dir, container_id ++ ":/home/tests/"]
  let tests := w.run testsCmd
  let reqsPart : Option ((List String × CommandResult) × (List String × CommandResult)) :=
    match reqs with
    | some r =>
      let reqsCmd := ["docker", "cp", r, container_id ++ ":/home"]
      let requirements := w.run reqsCmd
      let installCmd := ["docker", "exec", "-t", container_id,
        "pip3", "install", "-r", "/home/requirements.txt"]
      let install := w.run installCmd
      some ((reqsCmd, requirements), (installCmd, install))
    | none => none
  let gradeCmd := ["docker", "exec", "-t", container_id,
      "python3", "-m", "otter.grade", "/home/notebooks"]
    ++ (if unfiltered_pdfs then ["--pdf"] else [])
    ++ (if filtered_pdfs then ["--filter-pdf"] else [])
    ++ (if scripts then ["--scripts"] else [])
  let grade := w.run gradeCmd
  let csvCmd := ["docker", "cp", container_id ++ ":/home/notebooks/grades.csv",
    "./grades" ++ id ++ ".csv"]
  let csv := w.run csvCmd
  let trace0 := [launchCmd, copyCmd, testsCmd]
    ++ (match reqsPart with
        | some (rq, inst) => [rq.1, inst.1]
        | none => [])
    ++ [gradeCmd, csvCmd]
  match w.readCsv ("./grades" ++ id ++ ".csv") with
  | Except.error e => (Except.error e, trace0)
  | Except.ok df =>
    let pdfStep : Except String DataFrame × List (List String) :=
      if unfiltered_pdfs || filtered_pdfs then
        let mkdirCmd := ["mkdir", "manual_submissions"]
        let _ := w.run mkdirCmd
        let (pdfCmds, err) := copyPdfLoop w container_id df.manual
        match err with
        | some e => (Except.error e, mkdirCmd :: pdfCmds)
        | none =>
          (Except.ok { df with
              manual := df.manual.map
                (fun p => p.replace "/home/notebooks" "manual_submissions") },
            mkdirCmd :: pdfCmds)
      else (Except.ok df, [])
    match pdfStep with
    | (Except.error e, pdfTrace) => (Except.error e, trace0 ++ pdfTrace)
    | (Except.ok df', pdfTrace) =>
      let csvCleanupCmd := ["rm", "./grades" ++ id ++ ".csv"]
      let csvCleanup := w.run csvCleanupCmd
      let stopCmd := ["docker", "stop", container_id]
      let stop := w.run stopCmd
      let removeCmd := ["docker", "rm", container_id]
      let remove := w.run removeCmd
      let allCommands := [(launchCmd, launch), (copyCmd, copy), (testsCmd, tests),
          (gradeCmd, grade), (csvCmd, csv), (csvCleanupCmd, csvCleanup),
          (stopCmd, stop), (removeCmd, remove)]
        ++ (match reqsPart with
            | some (rq, inst) => [rq, inst]
            | none => [])
      let fullTrace := trace0 ++ pdfTrace ++ [csvCleanupCmd, stopCmd, removeCmd]
      match checkCommands allCommands with
      | Except.error e => (Except.error e, fullTrace)
      | Except.ok _ => (Except.ok df', fullTrace)

/-! ### Concrete instances used by counterexamples and witnesses -/

/-- The cell of claim C1's metadata-extraction example. -/
def c1Cell : NbCell :=
  { source := ["# TEST", "# BEGIN TEST", "points: 3", "hidden: true",
      "# END TEST", "assert x == 1"],
    outputs := [] }

/-- What `read_test` actually produces on `c1Cell`: the metadata loop breaks
on the first line (it ends with neither marker and `has_metadata` is still
false), so nothing is parsed and the whole remainder of the cell stays in
`input`. -/
def c1Result : Test :=
  { input := "# BEGIN TEST\npoints: 3\nhidden: true\n# END TEST\nassert x == 1",
    output := "", hidden := false, points := none,
    success_message := none, failure_message := none }

/-- A test cell whose metadata block contains the one-character line `x`:
non-blank, without a colon, not a key, not a terminator. -/
def c2CexCell : NbCell :=
  { source := ["# BEGIN TEST", "x", "# END TEST", "assert x == 1"], outputs := [] }

/-- A minimal extracted test. -/
def t0 : Test :=
  { input := "x", output := "", hidden := false, points := none,
    success_message := none, failure_message := none }

/-- The suite built from three copies of `t0`. -/
def s0 : OkSuite :=
  { cases := List.replicate 3
      { code := ">>> x\n", hidden := false, points := none,
        success_message := none, failure_message := none, locked := false },
    scored := true, setup := "", teardown := "", suiteType := "doctest" }

/-- A public case and a hidden case. -/
def case0 : OkCase :=
  { code := ">>> x\n", hidden := false, points := none,
    success_message := none, failure_message := none, locked := false }

/-- A hidden case. -/
def case1 : OkCase :=
  { code := ">>> y\n", hidden := true, points := none,
    success_message := none, failure_message := none, locked := false }

/-- A two-case artifact with one hidden case and a per-case points list. -/
def tf0 : TestFile :=
  { name := "q1", points := TFPoints.list [1, 2],
    suites := [{ cases := [case0, case1], scored := true, setup := "",
                 teardown := "", suiteType := "doctest" }] }

/-- The redaction of `tf0`: the hidden case and its points entry removed. -/
def tf1 : TestFile :=
  { name := "q1", points := TFPoints.list [1],
    suites := [{ cases := [case0], scored := true, setup := "",
                 teardown := "", suiteType := "doctest" }] }

/-- A world in which every command succeeds silently but the grade command
exits non-zero. -/
def w0 : World :=
  { run := fun c =>
      { stdout := "c1\n", stderr := "",
        returncode :=
          if c = ["docker", "exec", "-t", "c1", "python3", "-m",
              "otter.grade", "/home/notebooks"] then 1 else 0 },
    readCsv := fun _ => Except.ok { manual := [], body := "" } }

/-- A world in which the `docker stop` command writes to stderr. -/
def w1 : World :=
  { run := fun c =>
      { stdout := "c1\n",
        stderr := if c = ["docker", "stop", "c1"] then "boom" else "",
        returncode := 0 },
    readCsv := fun _ => Except.ok { manual := [], body := "" } }

/-- Decidable equality for `Except` results, so `decide` can evaluate the
embedded functions. -/
instance {ε α : Type} [DecidableEq ε] [DecidableEq α] : DecidableEq (Except ε α) := fun
  | Except.ok a, Except.ok b =>
    if h : a = b then isTrue (by rw [h])
    else isFalse (fun hh => h (Except.ok.inj hh))
  | Except.error e, Except.error f =>
    if h : e = f then isTrue (by rw [h])
    else isFalse (fun hh => h (Except.error.inj hh))
  | Except.ok _, Except.error _ => isFalse (fun hh => Except.noConfusion hh)
  | Except.error _, Except.ok _ => isFalse (fun hh => Except.noConfusion hh)

/-! ## Theorems -/

/-- C1 (counterexample): on the cell
`["# TEST", "# BEGIN TEST", "points: 3", "hidden: true", "# END TEST",
"assert x == 1"]`, `read_test` does not return a Test with `points == "3"`,
`hidden == True` and `input` equal to `assert x == 1`. -/
theorem read_test_c1_counterexample :
    ¬ ∃ t, read_test c1Cell = Except.ok t ∧ t.points = some "3"
      ∧ t.hidden = true ∧ t.input = "assert x == 1" := by
  rintro ⟨t, h1, h2, -, -⟩
  have hv : read_test c1Cell = Except.ok c1Result := by decide
  rw [hv] at h1
  cases h1
  exact absurd h2 (by decide)

/-- C1 (amended): on that cell the metadata loop exits on the first line, so
`read_test` returns a Test whose `points` is `None`, whose `hidden` is
`False`, and whose `input` is the newline-join of all five lines after the
first, metadata block included. -/
theorem read_test_c1_actual :
    read_test c1Cell = Except.ok c1Result
      ∧ c1Result.points = none ∧ c1Result.hidden = false := by
  decide

/-- C2 (counterexample): a `BEGIN TEST` block containing the non-blank line
`"x"` — which lacks a colon, matches no recognized key and is no terminator —
does not make `read_test` raise: lines whose `rstrip` has length at most one
are skipped. -/
theorem read_test_c2_counterexample :
    read_test c2CexCell = Except.ok
      { input := "x\n# END TEST\nassert x == 1", output := "", hidden := false,
        points := none, success_message := none, failure_message := none } := by
  decide

/-- If a line before the first terminator is malformed, the metadata loop
(running with `has_metadata` set) raises. -/
theorem parseTestMeta_error_of_malformed (lines : List String) :
    ∀ (m : MetaState) (j : Nat), j < lines.length →
      malformedLine (lines.getD j "") = true →
      (∀ k, k < j → isEndLine (lines.getD k "") = false) →
      parseTestMeta lines true m = Except.error "Error in test metadata" := by
  induction lines with
  | nil => intro m j hj _ _; simp at hj
  | cons l rest ih =>
    intro m j hj hmal hend
    match j with
    | 0 =>
      simp only [List.getD_cons_zero] at hmal
      simp only [malformedLine, Bool.and_eq_true, Bool.not_eq_true',
        decide_eq_true_eq] at hmal
      obtain ⟨⟨⟨⟨⟨⟨⟨h1, h2⟩, h3⟩, h4⟩, h5⟩, h6⟩, h7⟩, h8⟩ := hmal
      have h7' : ¬((pyRstrip l).length ≤ 1) := by omega
      simp only [parseTestMeta, h1, h2, h3, h4, h5, h6, h8, h7', Bool.false_eq_true,
        if_false, Bool.not_true, Bool.not_false, if_true]
    | j' + 1 =>
      have hend0 : pyEndsWith (pyRstrip l) "# END TEST" = false := by
        have := hend 0 (Nat.succ_pos j')
        simpa [isEndLine] using this
      have hj' : j' < rest.length := by simpa using Nat.lt_of_succ_lt_succ hj
      have hmal' : malformedLine (rest.getD j' "") = true := by
        simpa [List.getD_cons_succ] using hmal
      have hend' : ∀ k, k < j' → isEndLine (rest.getD k "") = false := by
        intro k hk
        have := hend (k + 1) (by omega)
        simpa [List.getD_cons_succ] using this
      simp only [parseTestMeta, hend0, Bool.false_eq_true, if_false]
      split
      · exact ih _ j' hj' hmal' hend'
      · split
        · simp_all
        · split
          · exact ih _ j' hj' hmal' hend'
          · split
            · exact ih _ j' hj' hmal' hend'
            · split
              · exact ih _ j' hj' hmal' hend'
              · split
                · exact ih _ j' hj' hmal' hend'
                · split
                  · exact ih _ j' hj' hmal' hend'
                  · split
                    · rfl
                    · exact ih _ j' hj' hmal' hend'

/-- If no line before the first terminator is malformed, the metadata loop
returns normally. -/
theorem parseTestMeta_ok_of_wellformed (lines : List String) :
    ∀ (m : MetaState),
      (∀ j, j < lines.length → (∀ k, k < j → isEndLine (lines.getD k "") = false) →
        malformedLine (lines.getD j "") = false) →
      ∃ m', parseTestMeta lines true m = Except.ok m' := by
  induction lines with
  | nil => intro m _; exact ⟨m, rfl⟩
  | cons l rest ih =>
    intro m hwf
    by_cases hEnd : pyEndsWith (pyRstrip l) "# END TEST" = true
    · exact ⟨m, by simp only [parseTestMeta, hEnd, if_true]⟩
    · have hEnd' : pyEndsWith (pyRstrip l) "# END TEST" = false :=
        Bool.eq_false_iff.mpr hEnd
      have hwf' : ∀ j, j < rest.length →
          (∀ k, k < j → isEndLine (rest.getD k "") = false) →
          malformedLine (rest.getD j "") = false := by
        intro j hj hend
        have := hwf (j + 1) (by simpa using Nat.succ_lt_succ hj) ?_
        · simpa [List.getD_cons_succ] using this
        · intro k hk
          match k with
          | 0 => simpa [isEndLine] using hEnd'
          | k' + 1 =>
            have := hend k' (by omega)
            simpa [List.getD_cons_succ] using this
      have hl : malformedLine l = false := by
        have := hwf 0 (by simp) (by intro k hk; omega)
        simpa using this
      simp only [parseTestMeta, hEnd', Bool.false_eq_true, if_false]
      split
      · exact ih _ hwf'
      · split
        · exact ⟨m, rfl⟩
        · split
          · exact ih _ hwf'
          · split
            · exact ih _ hwf'
            · split
              · exact ih _ hwf'
              · split
                · exact ih _ hwf'
                · split
                  · exact ih _ hwf'
                  · split
                    · rename_i hBegin hmeta hpts hhid hsucc hfail hlen hcolon
                      exfalso
                      have hTrue : malformedLine l = true := by
                        simp only [malformedLine, Bool.and_eq_true, Bool.not_eq_true',
                          decide_eq_true_eq]
                        refine ⟨⟨⟨⟨⟨⟨⟨hEnd', ?_⟩, ?_⟩, ?_⟩, ?_⟩, ?_⟩, ?_⟩, ?_⟩
                        · exact Bool.not_eq_true _ ▸ Bool.eq_false_iff.mpr hBegin
                        · exact Bool.eq_false_iff.mpr hpts
                        · exact Bool.eq_false_iff.mpr hhid
                        · exact Bool.eq_false_iff.mpr hsucc
                        · exact Bool.eq_false_iff.mpr hfail
                        · omega
                        · simpa using hcolon
                      rw [hl] at hTrue
                      exact Bool.false_ne_true hTrue
                    · exact ih _ hwf'

/-- C2 (amended): when the `# BEGIN TEST` block starts on the cell's first
line (otherwise the loop exits before parsing any metadata), `read_test`
raises the fatal `Error in test metadata` exactly when some line before the
first `# END TEST` terminator has more than one character after `rstrip`,
lacks a colon, and starts with no recognized key; lines whose `rstrip` has
length at most one — blank and whitespace-only lines included — are skipped
without error. -/
theorem read_test_malformed_metadata (first : String) (rest : List String)
    (outs : List NbOutput)
    (hb : pyEndsWith (pyRstrip first) "# BEGIN TEST" = true)
    (hne : pyEndsWith (pyRstrip first) "# END TEST" = false) :
    ((∃ j, j < rest.length ∧ malformedLine (rest.getD j "") = true
        ∧ ∀ k, k < j → isEndLine (rest.getD k "") = false) →
      read_test { source := first :: rest, outputs := outs } =
        Except.error "Error in test metadata")
    ∧ ((∀ j, j < rest.length → (∀ k, k < j → isEndLine (rest.getD k "") = false) →
        malformedLine (rest.getD j "") = false) →
      ∃ t, read_test { source := first :: rest, outputs := outs } = Except.ok t) := by
  have hstep : ∀ m : MetaState,
      parseTestMeta (first :: rest) false m = parseTestMeta rest true m := by
    intro m
    simp only [parseTestMeta, hne, hb, Bool.false_eq_true, if_false, if_true]
  set m0 : MetaState :=
    { hidden := strContains (pyLower first) "hidden", points := none,
      success_message := none, failure_message := none } with hm0
  constructor
  · rintro ⟨j, hj, hmal, hend⟩
    have hloop := parseTestMeta_error_of_malformed rest m0 j hj hmal hend
    simp only [read_test, hstep, hm0, hloop]
  · intro hwf
    obtain ⟨m', hm'⟩ := parseTestMeta_ok_of_wellformed rest m0 hwf
    have hres : read_test { source := first :: rest, outputs := outs } =
        Except.ok
          { input := String.intercalate "\n" rest, output := cellOutputText outs,
            hidden := m'.hidden, points := m'.points,
            success_message := m'.success_message,
            failure_message := m'.failure_message } := by
      simp only [read_test, hstep, hm0, hm']
    exact ⟨_, hres⟩

/-- C2 (witness): a block whose second line has no colon and matches no key
aborts extraction. -/
theorem read_test_malformed_metadata_witness :
    read_test { source := ["# BEGIN TEST", "oops no colon", "# END TEST"],
                outputs := [] } = Except.error "Error in test metadata" :=
  (read_test_malformed_metadata "# BEGIN TEST" ["oops no colon", "# END TEST"] []
      (by decide) (by decide)).1
    ⟨0, by decide, by decide, fun k hk => absurd hk (by omega)⟩

/-- A character whose lowercase form is `i` is not regex whitespace. -/
theorem toLower_i_not_ws (c : Char) (h : c.toLower = 'i') : isPyWs c = false := by
  by_contra hc
  rw [Bool.not_eq_false] at hc
  simp only [isPyWs, Bool.or_eq_true, decide_eq_true_eq] at hc
  have hc' : c = ' ' ∨ c = '\t' ∨ c = '\n' ∨ c = '\r' ∨ c = '\x0c' ∨ c = '\x0b' := by
    tauto
  rcases hc' with h' | h' | h' | h' | h' | h' <;> subst h' <;> exact absurd h (by decide)

/-- Dropping whitespace walks over any all-whitespace prefix. -/
theorem dropWhile_append_of_all {p : Char → Bool} (w r : List Char)
    (hw : ∀ c ∈ w, p c = true) :
    (w ++ r).dropWhile p = r.dropWhile p := by
  induction w with
  | nil => rfl
  | cons a w ih =>
    have ha : p a = true := hw a (List.mem_cons_self a w)
    simp only [List.cons_append, List.dropWhile_cons, ha, if_true]
    exact ih (fun c hc => hw c (List.mem_cons_of_mem a hc))

/-- Case-insensitive literal stripping succeeds exactly on inputs that start
with a case variant of the pattern. -/
theorem stripCI_eq_some (pat : List Char) :
    ∀ cs u, stripCI pat cs = some u ↔
      ∃ ig, cs = ig ++ u ∧ ig.map Char.toLower = pat.map Char.toLower := by
  induction pat with
  | nil =>
    intro cs u
    constructor
    · intro h
      refine ⟨[], ?_, rfl⟩
      simpa [stripCI] using h
    · rintro ⟨ig, hcs, hmap⟩
      have : ig = [] := by simpa using List.map_eq_nil_iff.mp hmap
      subst this
      simp only [List.nil_append] at hcs
      simp [stripCI, hcs]
  | cons p ps ih =>
    intro cs u
    cases cs with
    | nil =>
      simp only [stripCI]
      constructor
      · intro h; exact absurd h (by simp)
      · rintro ⟨ig, hcs, hmap⟩
        have : ig = [] ∧ u = [] := by
          constructor
          · cases ig with
            | nil => rfl
            | cons a t => simp at hcs
          · cases ig <;> simp_all
        obtain ⟨h1, _⟩ := this
        subst h1
        simp at hmap
    | cons c cs' =>
      simp only [stripCI]
      by_cases hcl : c.toLower = p.toLower
      · rw [if_pos hcl]
        rw [ih cs' u]
        constructor
        · rintro ⟨ig', hcs', hmap'⟩
          exact ⟨c :: ig', by simp [hcs'], by simp [hmap', hcl]⟩
        · rintro ⟨ig, hcs, hmap⟩
          cases ig with
          | nil => simp at hmap
          | cons a ig' =>
            simp only [List.cons_append, List.cons.injEq] at hcs
            obtain ⟨hac, hcs'⟩ := hcs
            subst hac
            simp only [List.map_cons, List.cons.injEq] at hmap
            exact ⟨ig', hcs', hmap.2⟩
      · rw [if_neg hcl]
        constructor
        · intro h; exact absurd h (by simp)
        · rintro ⟨ig, hcs, hmap⟩
          cases ig with
          | nil => simp at hmap
          | cons a ig' =>
            simp only [List.cons_append, List.cons.injEq] at hcs
            simp only [List.map_cons, List.cons.injEq] at hmap
            exact absurd (hcs.1 ▸ hmap.1) hcl

/-- A case variant of `ignore` is non-empty and starts with a non-whitespace
character, so `\s*` before it is maximal-munch. -/
theorem caseOfIgnore_head {ig : List Char} (h : caseOfIgnore ig) :
    ∃ i0 t, ig = i0 :: t ∧ isPyWs i0 = false := by
  cases ig with
  | nil => simp [caseOfIgnore] at h
  | cons i0 t =>
    refine ⟨i0, t, rfl, ?_⟩
    simp only [caseOfIgnore, List.map_cons] at h
    have : i0.toLower = 'i' := by
      have := congrArg (fun l => l.headD 'x') h
      simpa using this
    exact toLower_i_not_ws i0 this

/-- The second regex alternative matches exactly the lines of shape
`# \s* ignore …`. -/
theorem ignoreBranch2_iff (cs : List Char) :
    ignoreBranch2 cs = true ↔
      ∃ w1 ig rest, cs = '#' :: (w1 ++ ig ++ rest) ∧ allPyWs w1 ∧ caseOfIgnore ig := by
  cases cs with
  | nil => simp [ignoreBranch2]
  | cons c t =>
    by_cases hc : c = '#'
    · subst hc
      simp only [ignoreBranch2, Option.isSome_iff_exists]
      constructor
      · rintro ⟨u, hu⟩
        obtain ⟨ig, hsplit, hmap⟩ := (stripCI_eq_some _ _ _).mp hu
        refine ⟨t.takeWhile isPyWs, ig, u, ?_, ?_, ?_⟩
        · have hw : t.takeWhile isPyWs ++ (ig ++ u) = t := by
            rw [← hsplit]
            exact List.takeWhile_append_dropWhile (p := isPyWs) (l := t)
          rw [List.append_assoc, hw]
        · exact fun c hc => List.mem_takeWhile_imp hc
        · simpa [caseOfIgnore] using hmap
      · rintro ⟨w1, ig, rest, hshape, hw1, hig⟩
        obtain ⟨i0, it, hcons, hi0⟩ := caseOfIgnore_head hig
        have ht : t = w1 ++ (ig ++ rest) := by
          simpa [List.append_assoc] using List.cons.inj hshape |>.2
        have hdrop : dropWs t = ig ++ rest := by
          rw [ht]
          unfold dropWs
          rw [dropWhile_append_of_all _ _ hw1, hcons]
          simp [List.dropWhile_cons, hi0]
        refine ⟨rest, ?_⟩
        rw [hdrop]
        exact (stripCI_eq_some _ _ _).mpr
          ⟨ig, rfl, by simpa [caseOfIgnore] using hig⟩
    · constructor
      · intro h
        exfalso
        unfold ignoreBranch2 at h
        split at h
        · rename_i heq
          injection heq with h1 _
          exact hc h1
        · exact Bool.false_ne_true h
      · rintro ⟨w1, ig, rest, hshape, -, -⟩
        exact absurd (List.cons.inj hshape).1 hc

/-- The first regex alternative matches exactly the lines of shape
`## \s* ignore \s* ## …`. -/
theorem ignoreBranch1_iff (cs : List Char) :
    ignoreBranch1 cs = true ↔
      ∃ w1 ig w2 rest,
        cs = '#' :: '#' :: (w1 ++ ig ++ w2 ++ '#' :: '#' :: rest)
          ∧ allPyWs w1 ∧ caseOfIgnore ig ∧ allPyWs w2 := by
  constructor
  · intro h
    unfold ignoreBranch1 at h
    split at h
    · rename_i t
      split at h
      · rename_i u hu
        split at h
        · rename_i rest' hrest
          obtain ⟨ig, hsplit, hmap⟩ := (stripCI_eq_some _ _ _).mp hu
          have hu2 : u.takeWhile isPyWs ++ ('#' :: '#' :: rest') = u := by
            conv_rhs => rw [← List.takeWhile_append_dropWhile (p := isPyWs) (l := u)]
            rw [show u.dropWhile isPyWs = dropWs u from rfl, hrest]
          have ht : t.takeWhile isPyWs ++ (ig ++ u) = t := by
            conv_rhs => rw [← List.takeWhile_append_dropWhile (p := isPyWs) (l := t)]
            rw [show t.dropWhile isPyWs = dropWs t from rfl, hsplit]
          refine ⟨t.takeWhile isPyWs, ig, u.takeWhile isPyWs, rest', ?_, ?_, ?_, ?_⟩
          · conv_lhs => rw [← ht, ← hu2]
            simp [List.append_assoc]
          · exact fun c hc => List.mem_takeWhile_imp hc
          · simpa [caseOfIgnore] using hmap
          · exact fun c hc => List.mem_takeWhile_imp hc
        · exact absurd h (by simp)
      · exact absurd h (by simp)
    · exact absurd h (by simp)
  · rintro ⟨w1, ig, w2, rest, hshape, hw1, hig, hw2⟩
    obtain ⟨i0, it, hcons, hi0⟩ := caseOfIgnore_head hig
    subst hshape
    have hdrop1 : dropWs (w1 ++ ig ++ w2 ++ '#' :: '#' :: rest)
        = ig ++ (w2 ++ '#' :: '#' :: rest) := by
      unfold dropWs
      rw [List.append_assoc, List.append_assoc,
        dropWhile_append_of_all _ _ hw1, hcons]
      simp [List.dropWhile_cons, hi0, List.append_assoc]
    have hstrip : stripCI "ignore".data (ig ++ (w2 ++ '#' :: '#' :: rest))
        = some (w2 ++ '#' :: '#' :: rest) :=
      (stripCI_eq_some _ _ _).mpr ⟨ig, rfl, by simpa [caseOfIgnore] using hig⟩
    have hdrop2 : dropWs (w2 ++ '#' :: '#' :: rest) = '#' :: '#' :: rest := by
      unfold dropWs
      rw [dropWhile_append_of_all _ _ hw2]
      have hh : isPyWs '#' = false := by decide
      simp [List.dropWhile_cons, hh]
    simp only [ignoreBranch1, hdrop1, hstrip, hdrop2]

/-- C7: `is_ignore_cell` returns true exactly when the cell has a first
source line matching the ignore-marker grammar
`^(##\s*ignore\s*##\s*|#\s*ignore\s*)` (case-insensitive on `ignore`); cells
with no source are never ignored. -/
theorem is_ignore_cell_iff (source : List String) :
    is_ignore_cell source = true ↔
      ∃ l rest, source = l :: rest ∧ ignore_marker_spec l := by
  cases source with
  | nil => simp [is_ignore_cell]
  | cons l rest =>
    simp only [is_ignore_cell]
    constructor
    · intro h
      refine ⟨l, rest, rfl, ?_⟩
      have h' : ignoreBranch1 l.data = true ∨ ignoreBranch2 l.data = true := by
        simpa [ignoreRegexMatch] using h
      rcases h' with h1 | h2
      · exact Or.inl ((ignoreBranch1_iff l.data).mp h1)
      · exact Or.inr ((ignoreBranch2_iff l.data).mp h2)
    · rintro ⟨l', rest', heq, hspec⟩
      obtain ⟨h1, -⟩ := List.cons.inj heq
      subst h1
      rcases hspec with hs1 | hs2
      · have := (ignoreBranch1_iff l.data).mpr hs1
        simp [ignoreRegexMatch, this]
      · have := (ignoreBranch2_iff l.data).mpr hs2
        simp [ignoreRegexMatch, this]

/-- C6: when a question's points metadata is an explicit list and the tests
themselves assemble (`gen_suite` succeeds), `gen_test_cell` raises a fatal
error naming the question whenever the list length differs from the number of
tests, and otherwise succeeds with the list stored as-is in the artifact. -/
theorem gen_test_cell_points_list (name : String) (pts : List Rat)
    (tests : List Test) (s : OkSuite) (hs : gen_suite tests = Except.ok s) :
    (pts.length ≠ tests.length →
      gen_test_cell { name := name, points := some (QPoints.list pts) } tests =
        Except.error ("Error in question " ++ name
          ++ ": length of \x27points\x27 is " ++ toString pts.length
          ++ " but there are " ++ toString tests.length ++ " tests"))
    ∧ (pts.length = tests.length →
      gen_test_cell { name := name, points := some (QPoints.list pts) } tests =
        Except.ok
          ({ source := ["grader.check(\"" ++ name ++ "\")"],
             editable := false, deletable := false },
           { name := name, points := TFPoints.list pts, suites := [s] })) := by
  have hbind : ∀ {α β : Type} (a : α) (f : α → Except String β),
      (Except.ok a >>= f) = f a := fun _ _ => rfl
  constructor
  · intro h
    unfold gen_test_cell
    rw [hs, hbind]
    simp only [Option.getD_some]
    rw [if_pos h]
    rfl
  · intro h
    unfold gen_test_cell
    rw [hs, hbind]
    simp only [Option.getD_some]
    rw [if_neg (fun hc => hc h)]
    rfl

/-- C6 (witness): a points list of length 2 against 3 tests fails with the
question named; the same list against 2 tests succeeds and is stored
as-is. -/
theorem gen_test_cell_points_list_witness :
    gen_test_cell { name := "q1", points := some (QPoints.list [1, 2]) }
        [t0, t0, t0] =
      Except.error
        ("Error in question q1: length of \x27points\x27 is 2 but there are 3 tests") :=
  (gen_test_cell_points_list "q1" [1, 2] [t0, t0, t0] s0 (by decide)).1 (by decide)

/-- The source's backslash test (`len(lines) > 0 and
lines[-1].strip().endswith("\\")`) equals the specification's view through
`getLast?`. -/
theorem lastCond_eq (lines : List String) :
    (decide (0 < lines.length) && pyEndsWith (pyStrip (lines.getLastD "")) "\\")
      = (match lines.getLast? with
         | some p => pyEndsWith (pyStrip p) "\\"
         | none => false) := by
  induction lines using List.reverseRecOn with
  | nil => rfl
  | append_singleton l a _ =>
    rw [List.getLastD_concat, List.getLast?_concat]
    simp

/-- The converter's continuation decision, re-expressed on the previously
emitted line. -/
theorem contLine_eq_spec (lines : List String) (opens : List Char) (line : String) :
    contLine lines opens line
      = (pyStartsWith line " " || pyStartsWith line "\t"
          || exceptClause line || pyStartsWith line "elif "
          || pyStartsWith line "else:" || pyStartsWith line "finally:"
          || (match lines.getLast? with
              | some p => pyEndsWith (pyStrip p) "\\"
              | none => false)
          || !opens.isEmpty) := by
  unfold contLine
  rw [lastCond_eq]

/-- Every successful run of `str_to_doctest` is described by
`doctest_marks_spec`: one output line per input line, each input line
prefixed according to the computed continuation mark. -/
theorem str_to_doctest_spec_aux (cl : List String) :
    ∀ (lines : List String) (opens : List Char) (r : List String),
      str_to_doctest cl lines opens = some r →
      ∃ ms, doctest_marks_spec lines.getLast? opens cl = some ms
        ∧ ms.length = cl.length
        ∧ r = lines ++
            List.zipWith (fun b l => (if b then "... " else ">>> ") ++ l) ms cl := by
  induction cl with
  | nil =>
    intro lines opens r h
    have hr : lines = r := by simpa [str_to_doctest] using h
    exact ⟨[], rfl, rfl, by simp [hr.symm]⟩
  | cons line rest ih =>
    intro lines opens r h
    unfold str_to_doctest at h
    cases hop : updateOpens opens line with
    | none => rw [hop] at h; exact absurd h (by simp)
    | some opens' =>
      rw [hop] at h
      obtain ⟨ms, hms, hlen, hr⟩ :=
        ih (lines ++ [(if contLine lines opens line then "... " else ">>> ") ++ line])
          opens' r h
      rw [List.getLast?_concat] at hms
      refine ⟨contLine lines opens line :: ms, ?_, by simp [hlen], ?_⟩
      · simp only [doctest_marks_spec, hop, ← contLine_eq_spec, hms]
      · rw [hr]
        simp [List.append_assoc]

/-- C5: whenever `str_to_doctest` succeeds it emits exactly one output line
per input line in order, the line carrying the continuation marker rather
than the primary prompt exactly when it starts with a space or tab, opens an
`except`/`elif`/`else`/`finally` clause, follows an emitted line ending in a
backslash, or starts while the bracket stack is non-empty; in particular
`["x = (", "1,", "2)"]` converts with the 2nd and 3rd lines continued. -/
theorem str_to_doctest_marks (cl : List String) (r : List String)
    (h : str_to_doctest cl [] [] = some r) :
    (∃ ms, doctest_marks_spec none [] cl = some ms ∧ ms.length = cl.length
      ∧ r = List.zipWith (fun b l => (if b then "... " else ">>> ") ++ l) ms cl)
    ∧ str_to_doctest ["x = (", "1,", "2)"] [] [] =
        some [">>> x = (", "... 1,", "... 2)"] := by
  constructor
  · obtain ⟨ms, hms, hlen, hr⟩ := str_to_doctest_spec_aux cl [] [] r h
    exact ⟨ms, by simpa using hms, hlen, by simpa using hr⟩
  · decide

/-- C5 (witness): the characterization applied to the one-line program
`x = 1`. -/
theorem str_to_doctest_marks_witness :
    (∃ ms, doctest_marks_spec none [] ["x = 1"] = some ms
      ∧ ms.length = (["x = 1"] : List String).length
      ∧ [">>> x = 1"] =
          List.zipWith (fun b l => (if b then "... " else ">>> ") ++ l) ms ["x = 1"])
    ∧ str_to_doctest ["x = (", "1,", "2)"] [] [] =
        some [">>> x = (", "... 1,", "... 2)"] :=
  str_to_doctest_marks ["x = 1"] [">>> x = 1"] (by decide)

/-- Opening brackets are not closing brackets. -/
theorem open_not_close {c : Char} (h : (c = '(' || c = '[' || c = '{') = true) :
    (c = ')' || c = ']' || c = '}') = false := by
  simp only [Bool.or_eq_true, decide_eq_true_eq] at h
  have hc : c = '(' ∨ c = '[' ∨ c = '{' := by tauto
  rcases hc with h' | h' | h' <;> subst h' <;> decide

/-- `closeCount` on a cons headed by a closing bracket. -/
theorem closeCount_cons_pos {c : Char} (l : List Char)
    (h : (c = ')' || c = ']' || c = '}') = true) :
    closeCount (c :: l) = closeCount l + 1 := by
  simp [closeCount, List.countP_cons, h]

/-- `closeCount` on a cons headed by a non-closing character. -/
theorem closeCount_cons_neg {c : Char} (l : List Char)
    (h : (c = ')' || c = ']' || c = '}') = false) :
    closeCount (c :: l) = closeCount l := by
  simp [closeCount, List.countP_cons, h]

/-- `openCount` on a cons headed by an opening bracket. -/
theorem openCount_cons_pos {c : Char} (l : List Char)
    (h : (c = '(' || c = '[' || c = '{') = true) :
    openCount (c :: l) = openCount l + 1 := by
  simp [openCount, List.countP_cons, h]

/-- `openCount` on a cons headed by a non-opening character. -/
theorem openCount_cons_neg {c : Char} (l : List Char)
    (h : (c = '(' || c = '[' || c = '{') = false) :
    openCount (c :: l) = openCount l := by
  simp [openCount, List.countP_cons, h]

/-- The bracket loop never underflows, and tracks the open/close difference,
as long as closers never outnumber openers relative to the incoming stack. -/
theorem updateOpens_chars (cs : List Char) :
    ∀ st : List Char,
      (∀ n, n ≤ cs.length →
        closeCount (cs.take n) ≤ st.length + openCount (cs.take n)) →
      ∃ st', cs.foldl bracketStep (some st) = some st'
        ∧ st'.length + closeCount cs = st.length + openCount cs := by
  induction cs with
  | nil => intro st _; exact ⟨st, rfl, by simp [closeCount, openCount]⟩
  | cons c rest ih =>
    intro st h
    by_cases hopen : (c = '(' || c = '[' || c = '{') = true
    · have hnc : (c = ')' || c = ']' || c = '}') = false := open_not_close hopen
      have hstep : bracketStep (some st) c = some (st ++ [c]) := by
        simp [bracketStep, hopen]
      have hyp : ∀ n, n ≤ rest.length →
          closeCount (rest.take n) ≤ (st ++ [c]).length + openCount (rest.take n) := by
        intro n hn
        have hh := h (n + 1) (by simpa using Nat.succ_le_succ hn)
        rw [List.take_succ_cons, closeCount_cons_neg _ hnc,
          openCount_cons_pos _ hopen] at hh
        simp only [List.length_append, List.length_singleton]
        omega
      obtain ⟨st', h1, h2⟩ := ih (st ++ [c]) hyp
      refine ⟨st', by rw [List.foldl_cons, hstep]; exact h1, ?_⟩
      rw [closeCount_cons_neg _ hnc, openCount_cons_pos _ hopen]
      simp only [List.length_append, List.length_singleton] at h2
      omega
    · have hopen' : (c = '(' || c = '[' || c = '{') = false :=
        Bool.eq_false_iff.mpr hopen
      by_cases hclose : (c = ')' || c = ']' || c = '}') = true
      · have hc1 : closeCount [c] = 1 := by
          simp [closeCount, List.countP_cons, hclose]
        have ho1 : openCount [c] = 0 := by
          simp [openCount, List.countP_cons, hopen']
        have h1 := h 1 (by simp)
        rw [List.take_succ_cons, List.take_zero, hc1, ho1] at h1
        cases st with
        | nil => simp at h1
        | cons s0 st1 =>
          have hstep : bracketStep (some (s0 :: st1)) c =
              some ((s0 :: st1).dropLast) := by
            simp only [bracketStep, hopen', Bool.false_eq_true, if_false, hclose,
              if_true]
          have hld : ((s0 :: st1).dropLast).length + 1 = (s0 :: st1).length := by
            simp [List.length_dropLast]
          have hyp : ∀ n, n ≤ rest.length →
              closeCount (rest.take n) ≤
                ((s0 :: st1).dropLast).length + openCount (rest.take n) := by
            intro n hn
            have hh := h (n + 1) (by simpa using Nat.succ_le_succ hn)
            rw [List.take_succ_cons, closeCount_cons_pos _ hclose,
              openCount_cons_neg _ hopen'] at hh
            omega
          obtain ⟨st', h1', h2'⟩ := ih ((s0 :: st1).dropLast) hyp
          refine ⟨st', by rw [List.foldl_cons, hstep]; exact h1', ?_⟩
          rw [closeCount_cons_pos _ hclose, openCount_cons_neg _ hopen']
          omega
      · have hclose' : (c = ')' || c = ']' || c = '}') = false :=
          Bool.eq_false_iff.mpr hclose
        have hstep : bracketStep (some st) c = some st := by
          simp [bracketStep, hopen', hclose']
        have hyp : ∀ n, n ≤ rest.length →
            closeCount (rest.take n) ≤ st.length + openCount (rest.take n) := by
          intro n hn
          have hh := h (n + 1) (by simpa using Nat.succ_le_succ hn)
          rw [List.take_succ_cons, closeCount_cons_neg _ hclose',
            openCount_cons_neg _ hopen'] at hh
          omega
        obtain ⟨st', h1, h2⟩ := ih st hyp
        refine ⟨st', by rw [List.foldl_cons, hstep]; exact h1, ?_⟩
        rw [closeCount_cons_neg _ hclose', openCount_cons_neg _ hopen']
        omega

/-- Totality of `str_to_doctest` on inputs whose closers never outnumber
openers (relative to the incoming stack). -/
theorem str_to_doctest_total (cl : List String) :
    ∀ (lines : List String) (st : List Char),
      (∀ n, n ≤ (bracketChars cl).length →
        closeCount ((bracketChars cl).take n) ≤
          st.length + openCount ((bracketChars cl).take n)) →
      ∃ r, str_to_doctest cl lines st = some r := by
  induction cl with
  | nil => exact fun lines st _ => ⟨lines, rfl⟩
  | cons line rest ih =>
    intro lines st h
    have hsplit : bracketChars (line :: rest) = line.data ++ bracketChars rest := by
      simp [bracketChars]
    have hlen2 : (bracketChars (line :: rest)).length
        = line.data.length + (bracketChars rest).length := by
      rw [hsplit, List.length_append]
    have hline : ∀ n, n ≤ line.data.length →
        closeCount (line.data.take n) ≤ st.length + openCount (line.data.take n) := by
      intro n hn
      have hh := h n (by rw [hlen2]; omega)
      rw [hsplit, List.take_append_eq_append_take] at hh
      have hz : n - line.data.length = 0 := by omega
      rw [hz] at hh
      simpa using hh
    obtain ⟨st', hst', hcount⟩ := updateOpens_chars line.data st hline
    unfold str_to_doctest
    rw [show updateOpens st line = some st' from hst']
    apply ih
    intro n hn
    have hh := h (line.data.length + n) (by rw [hlen2]; omega)
    rw [hsplit, List.take_append_eq_append_take] at hh
    have h1 : line.data.take (line.data.length + n) = line.data :=
      List.take_of_length_le (by omega)
    have h2 : line.data.length + n - line.data.length = n := by omega
    rw [h1, h2] at hh
    have h3 : closeCount (line.data ++ (bracketChars rest).take n)
        = closeCount line.data + closeCount ((bracketChars rest).take n) := by
      simp [closeCount, List.countP_append]
    have h4 : openCount (line.data ++ (bracketChars rest).take n)
        = openCount line.data + openCount ((bracketChars rest).take n) := by
      simp [openCount, List.countP_append]
    rw [h3, h4] at hh
    omega

/-- C9: `str_to_doctest` returns normally on every line sequence in which, at
every character position, the closing brackets seen so far never outnumber
the opening ones; on the single line `x)` it instead pops the empty bracket
stack and raises. -/
theorem str_to_doctest_safety (cl : List String)
    (h : ∀ n, n ≤ (bracketChars cl).length →
      closeCount ((bracketChars cl).take n) ≤ openCount ((bracketChars cl).take n)) :
    (∃ r, str_to_doctest cl [] [] = some r)
    ∧ str_to_doctest ["x)"] [] [] = none := by
  constructor
  · exact str_to_doctest_total cl [] []
      (fun n hn => by simpa using h n hn)
  · decide

/-- C9 (witness): the totality direction applied to a balanced three-line
input. -/
theorem str_to_doctest_safety_witness :
    (∃ r, str_to_doctest ["x = (", "1,", "2)"] [] [] = some r)
    ∧ str_to_doctest ["x)"] [] [] = none :=
  str_to_doctest_safety ["x = (", "1,", "2)"] (by decide)

/-- Erasing the index right after a prefix removes the element there. -/
theorem eraseIdx_at_append {α : Type} (xs : List α) (y : α) (ys : List α) :
    (xs ++ y :: ys).eraseIdx xs.length = xs ++ ys := by
  induction xs with
  | nil => rfl
  | cons a as ih => simpa [List.eraseIdx] using ih

/-- `pop` at the index right after a prefix. -/
theorem popAt_middle {α : Type} (xs : List α) (y : α) (ys : List α) :
    popAt (xs ++ y :: ys) xs.length = some (xs ++ ys) := by
  unfold popAt
  rw [if_pos (by simp)]
  exact congrArg some (eraseIdx_at_append xs y ys)

/-- `enumerate` of a snoc. -/
theorem enumFromN_concat {α : Type} (xs : List α) (x : α) :
    ∀ n, enumFromN n (xs ++ [x]) = enumFromN n xs ++ [(n + xs.length, x)] := by
  induction xs with
  | nil => intro n; simp [enumFromN]
  | cons a as ih =>
    intro n
    have harith : n + 1 + as.length = n + (as.length + 1) := by omega
    show (n, a) :: enumFromN (n + 1) (as ++ [x])
        = enumFromN n (a :: as) ++ [(n + (a :: as).length, x)]
    rw [ih (n + 1), enumFromN]
    simp [harith]

/-- `pyEnumerate` of a snoc. -/
theorem pyEnumerate_concat {α : Type} (xs : List α) (x : α) :
    pyEnumerate (xs ++ [x]) = pyEnumerate xs ++ [(xs.length, x)] := by
  unfold pyEnumerate
  rw [enumFromN_concat]
  simp

/-- Members of an enumeration come from the list. -/
theorem enumFromN_snd_mem {α : Type} (xs : List α) :
    ∀ (n : Nat) (q : Nat × α), q ∈ enumFromN n xs → q.2 ∈ xs := by
  induction xs with
  | nil => intro n q h; simp [enumFromN] at h
  | cons a as ih =>
    intro n q h
    simp only [enumFromN, List.mem_cons] at h
    rcases h with h | h
    · subst h; simp
    · exact List.mem_cons_of_mem a (ih (n + 1) q h)

/-- A dead redaction accumulator stays dead. -/
theorem foldl_redactStep_none (ps : List (Nat × OkCase)) :
    ps.foldl redactStep none = none := by
  induction ps with
  | nil => rfl
  | cons p rest ih => simpa [redactStep] using ih

/-- A redaction step on a visible case is the identity. -/
theorem redactStep_vis (acc : List OkCase × TFPoints) (q : Nat × OkCase)
    (h : q.2.hidden = false) : redactStep (some acc) q = some acc := by
  obtain ⟨cs, pts⟩ := acc
  simp [redactStep, h]

/-- Folding the redaction loop over only-visible cases changes nothing. -/
theorem redact_fold_id (ps : List (Nat × OkCase)) :
    ∀ (acc : List OkCase × TFPoints),
      (∀ q ∈ ps, q.2.hidden = false) →
      ps.foldl redactStep (some acc) = some acc := by
  induction ps with
  | nil => intro acc _; rfl
  | cons p rest ih =>
    intro acc h
    rw [List.foldl_cons, redactStep_vis acc p (h p (List.mem_cons_self p rest))]
    exact ih acc (fun q hq => h q (List.mem_cons_of_mem p hq))

/-- Redacting a suite with no hidden cases is a no-op. -/
theorem redactSuiteCases_no_hidden (cs : List OkCase) (pts : TFPoints)
    (h : ∀ c ∈ cs, c.hidden = false) :
    redactSuiteCases cs pts = some (cs, pts) := by
  unfold redactSuiteCases
  apply redact_fold_id
  intro q hq
  exact h q.2 (enumFromN_snd_mem cs 0 q (List.mem_reverse.mp hq))

/-- Whatever happens to the points value, a successful redaction fold leaves
exactly the visible cases, in order, with any untouched suffix preserved. -/
theorem redact_fold_cases (cs : List OkCase) :
    ∀ (e : List OkCase) (p : TFPoints) (out : List OkCase × TFPoints),
      (pyEnumerate cs).reverse.foldl redactStep (some (cs ++ e, p)) = some out →
      out.1 = cs.filter (fun c => !c.hidden) ++ e := by
  induction cs using List.reverseRecOn with
  | nil =>
    intro e p out h
    simp only [pyEnumerate, enumFromN, List.reverse_nil, List.foldl_nil,
      List.nil_append, Option.some.injEq] at h
    rw [← h]
    simp
  | append_singleton ds d ih =>
    intro e p out h
    rw [pyEnumerate_concat, List.reverse_append, List.reverse_singleton,
      List.singleton_append, List.foldl_cons] at h
    by_cases hd : d.hidden
    · have hpop : popAt (ds ++ d :: e) ds.length = some (ds ++ e) :=
        popAt_middle ds d e
      cases p with
      | num q =>
        have hstep : redactStep (some ((ds ++ [d]) ++ e, TFPoints.num q))
            (ds.length, d) = some (ds ++ e, TFPoints.num q) := by
          simp [redactStep, hd, hpop]
        rw [hstep] at h
        have := ih e (TFPoints.num q) out h
        rw [this, List.filter_append]
        simp [hd]
      | list l =>
        cases hpl : popAt l ds.length with
        | none =>
          have hstep : redactStep (some ((ds ++ [d]) ++ e, TFPoints.list l))
              (ds.length, d) = none := by
            simp [redactStep, hd, hpop, hpl]
          rw [hstep, foldl_redactStep_none] at h
          exact absurd h (by simp)
        | some l' =>
          have hstep : redactStep (some ((ds ++ [d]) ++ e, TFPoints.list l))
              (ds.length, d) = some (ds ++ e, TFPoints.list l') := by
            simp [redactStep, hd, hpop, hpl]
          rw [hstep] at h
          have := ih e (TFPoints.list l') out h
          rw [this, List.filter_append]
          simp [hd]
    · have hd' : d.hidden = false := Bool.eq_false_iff.mpr hd
      have hstep : redactStep (some ((ds ++ [d]) ++ e, p)) (ds.length, d)
          = some ((ds ++ [d]) ++ e, p) :=
        redactStep_vis _ _ hd'
      rw [hstep] at h
      have hsh : (ds ++ [d]) ++ e = ds ++ ([d] ++ e) := by simp
      rw [hsh] at h
      have := ih ([d] ++ e) p out h
      rw [this, List.filter_append]
      simp [hd', List.append_assoc]

/-- Lockstep filtering of a snoc pair with a hidden last case. -/
theorem lockstepFilter_concat_hidden (l₀ : List Rat) (ds : List OkCase)
    (x : Rat) (d : OkCase) (hlen : l₀.length = ds.length)
    (hd : d.hidden = true) :
    lockstepFilter (l₀ ++ [x]) (ds ++ [d]) = lockstepFilter l₀ ds := by
  unfold lockstepFilter
  rw [List.zip_append hlen]
  simp [hd]

/-- Lockstep filtering of a snoc pair with a visible last case. -/
theorem lockstepFilter_concat_vis (l₀ : List Rat) (ds : List OkCase)
    (x : Rat) (d : OkCase) (hlen : l₀.length = ds.length)
    (hd : d.hidden = false) :
    lockstepFilter (l₀ ++ [x]) (ds ++ [d]) = lockstepFilter l₀ ds ++ [x] := by
  unfold lockstepFilter
  rw [List.zip_append hlen]
  simp [hd]

/-- When the points value is a list of exactly one entry per case, the
redaction fold succeeds and removes the points entries of hidden cases in
lockstep with the cases themselves. -/
theorem redact_fold_lockstep (cs : List OkCase) :
    ∀ (l : List Rat) (e : List OkCase) (ex : List Rat),
      l.length = cs.length →
      (pyEnumerate cs).reverse.foldl redactStep
          (some (cs ++ e, TFPoints.list (l ++ ex)))
        = some (cs.filter (fun c => !c.hidden) ++ e,
            TFPoints.list (lockstepFilter l cs ++ ex)) := by
  induction cs using List.reverseRecOn with
  | nil =>
    intro l e ex hl
    have hl0 : l = [] := List.length_eq_zero.mp (by simpa using hl)
    subst hl0
    simp [pyEnumerate, enumFromN, lockstepFilter]
  | append_singleton ds d ih =>
    intro l e ex hl
    have hlne : l ≠ [] := by
      intro hx
      subst hx
      simp at hl
    obtain ⟨l₀, x, rfl⟩ : ∃ l₀ x, l = l₀ ++ [x] :=
      ⟨l.dropLast, l.getLast hlne, (List.dropLast_append_getLast hlne).symm⟩
    have hl₀ : l₀.length = ds.length := by
      simp only [List.length_append, List.length_singleton, List.length_append,
        List.length_singleton] at hl
      omega
    rw [pyEnumerate_concat, List.reverse_append, List.reverse_singleton,
      List.singleton_append, List.foldl_cons]
    by_cases hd : d.hidden
    · have hpopc : popAt (ds ++ d :: e) ds.length = some (ds ++ e) :=
        popAt_middle ds d e
      have hpopl : popAt (l₀ ++ x :: ex) ds.length = some (l₀ ++ ex) := by
        rw [← hl₀]
        exact popAt_middle l₀ x ex
      have hstep : redactStep
          (some ((ds ++ [d]) ++ e, TFPoints.list ((l₀ ++ [x]) ++ ex)))
          (ds.length, d) = some (ds ++ e, TFPoints.list (l₀ ++ ex)) := by
        simp [redactStep, hd, hpopc, hpopl]
      rw [hstep, ih l₀ e ex hl₀, List.filter_append,
        lockstepFilter_concat_hidden l₀ ds x d hl₀ hd]
      simp [hd]
    · have hd' : d.hidden = false := Bool.eq_false_iff.mpr hd
      have hstep : redactStep
          (some ((ds ++ [d]) ++ e, TFPoints.list ((l₀ ++ [x]) ++ ex)))
          (ds.length, d)
          = some ((ds ++ [d]) ++ e, TFPoints.list ((l₀ ++ [x]) ++ ex)) :=
        redactStep_vis _ _ hd'
      have hsh1 : (ds ++ [d]) ++ e = ds ++ ([d] ++ e) := by simp
      have hsh2 : (l₀ ++ [x]) ++ ex = l₀ ++ ([x] ++ ex) := by simp
      rw [hstep, hsh1, hsh2, ih l₀ ([d] ++ e) ([x] ++ ex) hl₀,
        List.filter_append, lockstepFilter_concat_vis l₀ ds x d hl₀ hd']
      simp [hd', List.append_assoc]

/-- A dead suites accumulator stays dead. -/
theorem foldl_redactSuitesStep_none (ss : List OkSuite) :
    ss.foldl redactSuitesStep none = none := by
  induction ss with
  | nil => rfl
  | cons s rest ih => simpa [redactSuitesStep] using ih

/-- A successful pass over the suites leaves each suite with exactly its
visible cases, in order. -/
theorem suites_fold_shape (suites : List OkSuite) :
    ∀ (ss : List OkSuite) (p : TFPoints) (out : List OkSuite × TFPoints),
      suites.foldl redactSuitesStep (some (ss, p)) = some out →
      out.1 = ss ++ suites.map
        (fun s => { s with cases := s.cases.filter (fun c => !c.hidden) }) := by
  induction suites with
  | nil =>
    intro ss p out h
    simp only [List.foldl_nil, Option.some.injEq] at h
    rw [← h]
    simp
  | cons s rest ih =>
    intro ss p out h
    rw [List.foldl_cons] at h
    cases hred : redactSuiteCases s.cases p with
    | none =>
      rw [show redactSuitesStep (some (ss, p)) s = none by
            simp [redactSuitesStep, hred],
        foldl_redactSuitesStep_none] at h
      exact absurd h (by simp)
    | some cp =>
      obtain ⟨cs', p'⟩ := cp
      have hcs : cs' = s.cases.filter (fun c => !c.hidden) := by
        have hx := redact_fold_cases s.cases [] p (cs', p')
          (by rw [List.append_nil]; exact hred)
        simpa using hx
      rw [show redactSuitesStep (some (ss, p)) s
            = some (ss ++ [{ s with cases := cs' }], p') by
          simp [redactSuitesStep, hred]] at h
      have := ih _ _ _ h
      rw [this, hcs]
      simp [List.append_assoc]

/-- Passing over suites with no hidden cases at all changes nothing. -/
theorem suites_fold_id (suites : List OkSuite)
    (hall : ∀ s ∈ suites, ∀ c ∈ s.cases, c.hidden = false) :
    ∀ (ss : List OkSuite) (p : TFPoints),
      suites.foldl redactSuitesStep (some (ss, p)) = some (ss ++ suites, p) := by
  induction suites with
  | nil => intro ss p; simp
  | cons s rest ih =>
    intro ss p
    rw [List.foldl_cons]
    have hred : redactSuiteCases s.cases p = some (s.cases, p) :=
      redactSuiteCases_no_hidden s.cases p
        (fun c hc => hall s (List.mem_cons_self s rest) c hc)
    rw [show redactSuitesStep (some (ss, p)) s = some (ss ++ [s], p) by
        simp [redactSuitesStep, hred]]
    rw [ih (fun s' hs' c hc => hall s' (List.mem_cons_of_mem s hs') c hc)]
    simp

/-- A successful file-level redaction keeps the name and filters every
suite's cases to the visible ones. -/
theorem remove_hidden_suites (tf tf' : TestFile)
    (h : remove_hidden_from_test tf = some tf') :
    tf'.name = tf.name
      ∧ tf'.suites = tf.suites.map
          (fun s => { s with cases := s.cases.filter (fun c => !c.hidden) }) := by
  unfold remove_hidden_from_test at h
  cases hfold : tf.suites.foldl redactSuitesStep (some ([], tf.points)) with
  | none => rw [hfold] at h; exact absurd h (by simp)
  | some sp =>
    rw [hfold] at h
    obtain ⟨suites', pts'⟩ := sp
    have h' : ({ name := tf.name, points := pts', suites := suites' } : TestFile)
        = tf' := by simpa using h
    have hsh := suites_fold_shape tf.suites [] tf.points (suites', pts') hfold
    simp only [List.nil_append] at hsh
    constructor
    · rw [← h']
    · rw [← h']
      exact hsh

/-- File-level redaction is idempotent. -/
theorem remove_hidden_idem (tf tf' : TestFile)
    (h : remove_hidden_from_test tf = some tf') :
    remove_hidden_from_test tf' = some tf' := by
  obtain ⟨-, hsuites⟩ := remove_hidden_suites tf tf' h
  have hall : ∀ s ∈ tf'.suites, ∀ c ∈ s.cases, c.hidden = false := by
    intro s hs c hc
    rw [hsuites] at hs
    obtain ⟨s0, -, hs0⟩ := List.mem_map.mp hs
    rw [← hs0] at hc
    simp only at hc
    have := List.of_mem_filter hc
    simpa using this
  unfold remove_hidden_from_test
  rw [suites_fold_id tf'.suites hall [] tf'.points]
  rfl

/-- File-level redaction of a one-suite artifact with a matching points list
removes the hidden cases and their points entries in lockstep. -/
theorem remove_hidden_lockstep (tf : TestFile) (s0 : OkSuite) (l : List Rat)
    (hsuites : tf.suites = [s0]) (hpts : tf.points = TFPoints.list l)
    (hlen : l.length = s0.cases.length) :
    remove_hidden_from_test tf = some
      { name := tf.name,
        points := TFPoints.list (lockstepFilter l s0.cases),
        suites := [{ s0 with cases := s0.cases.filter (fun c => !c.hidden) }] } := by
  unfold remove_hidden_from_test
  rw [hsuites, hpts]
  have hx := redact_fold_lockstep s0.cases l [] [] hlen
  simp only [List.append_nil] at hx
  have hred : redactSuiteCases s0.cases (TFPoints.list l)
      = some (s0.cases.filter (fun c => !c.hidden),
          TFPoints.list (lockstepFilter l s0.cases)) := hx
  rw [show ([s0] : List OkSuite).foldl redactSuitesStep
        (some ([], TFPoints.list l))
      = some ([{ s0 with cases := s0.cases.filter (fun c => !c.hidden) }],
          TFPoints.list (lockstepFilter l s0.cases)) by
    simp [redactSuitesStep, hred]]
  rfl

/-- Per-entry behavior of a successful directory pass. -/
theorem dir_zip (files : List (String × TestFile)) :
    ∀ files', remove_hidden_tests_from_dir files = some files' →
      files'.length = files.length
        ∧ ∀ p ∈ files.zip files', processFile p.1 = some p.2 := by
  induction files with
  | nil =>
    intro files' h
    simp only [remove_hidden_tests_from_dir, Option.some.injEq] at h
    subst h
    simp
  | cons p rest ih =>
    intro files' h
    unfold remove_hidden_tests_from_dir at h
    cases hp : processFile p with
    | none => rw [hp] at h; exact absurd h (by simp)
    | some q =>
      rw [hp] at h
      cases hrest : remove_hidden_tests_from_dir rest with
      | none => rw [hrest] at h; exact absurd h (by simp)
      | some qs =>
        rw [hrest] at h
        have h2 : (some (q :: qs) : Option (List (String × TestFile)))
            = some files' := h
        obtain ⟨hlen, hzip⟩ := ih qs hrest
        obtain rfl := Option.some.inj h2
        refine ⟨by simp [hlen], ?_⟩
        intro pr hpr
        rw [List.zip_cons_cons, List.mem_cons] at hpr
        rcases hpr with hpr | hpr
        · subst hpr; exact hp
        · exact hzip pr hpr

/-- A directory pass over already-fixed entries is the identity. -/
theorem dir_id (files : List (String × TestFile))
    (h : ∀ p ∈ files, processFile p = some p) :
    remove_hidden_tests_from_dir files = some files := by
  induction files with
  | nil => rfl
  | cons p rest ih =>
    unfold remove_hidden_tests_from_dir
    rw [h p (List.mem_cons_self p rest),
      ih (fun q hq => h q (List.mem_cons_of_mem p hq))]
    rfl

/-- One directory entry, processed twice, is fixed after the first pass. -/
theorem processFile_idem (p q : String × TestFile)
    (h : processFile p = some q) : processFile q = some q := by
  unfold processFile at h ⊢
  by_cases hc : p.1 = "__init__.py" ∨ pathSuffix p.1 ≠ ".py"
  · rw [if_pos hc] at h
    simp only [Option.some.injEq] at h
    subst h
    rw [if_pos hc]
  · rw [if_neg hc] at h
    cases hr : remove_hidden_from_test p.2 with
    | none => rw [hr] at h; exact absurd h (by simp)
    | some tf' =>
      rw [hr] at h
      simp only [Option.map_some', Option.some.injEq] at h
      have hq1 : q.1 = p.1 := by rw [← h]
      have hq2 : q.2 = tf' := by rw [← h]
      rw [if_neg (by rw [hq1]; exact hc), hq2, remove_hidden_idem p.2 tf' hr]
      simp only [Option.map_some', Option.some.injEq]
      rw [← h]

/-- C3: one pass of `remove_hidden_tests_from_dir` fixes the directory — a
second pass reproduces it exactly (idempotence); entries named `__init__.py`
or without the `.py` suffix are untouched; every processed artifact keeps its
suites with exactly the non-hidden cases in their original order; and for a
single-suite artifact with a matching per-case points list, the points entry
at each removed case's index is removed in lockstep. -/
theorem remove_hidden_tests_from_dir_correct
    (files files' : List (String × TestFile))
    (h : remove_hidden_tests_from_dir files = some files') :
    remove_hidden_tests_from_dir files' = some files'
    ∧ files'.length = files.length
    ∧ ∀ p ∈ files.zip files',
        ((p.1.1 = "__init__.py" ∨ pathSuffix p.1.1 ≠ ".py") → p.2 = p.1)
        ∧ (¬(p.1.1 = "__init__.py" ∨ pathSuffix p.1.1 ≠ ".py") →
            p.2.1 = p.1.1
            ∧ p.2.2.suites = p.1.2.suites.map
                (fun s => { s with cases := s.cases.filter (fun c => !c.hidden) })
            ∧ ∀ s0 l, p.1.2.suites = [s0] → p.1.2.points = TFPoints.list l →
                l.length = s0.cases.length →
                p.2.2.points = TFPoints.list (lockstepFilter l s0.cases)) := by
  obtain ⟨hlen, hzip⟩ := dir_zip files files' h
  refine ⟨?_, hlen, ?_⟩
  · -- idempotence, by induction through the zip facts
    clear hlen hzip
    induction files generalizing files' with
    | nil =>
      simp only [remove_hidden_tests_from_dir, Option.some.injEq] at h
      subst h
      rfl
    | cons p rest ih =>
      unfold remove_hidden_tests_from_dir at h
      cases hp : processFile p with
      | none => rw [hp] at h; exact absurd h (by simp)
      | some q =>
        rw [hp] at h
        cases hrest : remove_hidden_tests_from_dir rest with
        | none => rw [hrest] at h; exact absurd h (by simp)
        | some qs =>
          rw [hrest] at h
          have h2 : (some (q :: qs) : Option (List (String × TestFile)))
              = some files' := h
          obtain rfl := Option.some.inj h2
          unfold remove_hidden_tests_from_dir
          rw [processFile_idem p q hp, ih qs hrest]
          rfl
  · intro p hp
    have hproc := hzip p hp
    constructor
    · intro hc
      unfold processFile at hproc
      rw [if_pos hc] at hproc
      exact (Option.some.inj hproc).symm
    · intro hc
      unfold processFile at hproc
      rw [if_neg hc] at hproc
      cases hr : remove_hidden_from_test p.1.2 with
      | none => rw [hr] at hproc; exact absurd hproc (by simp)
      | some tf' =>
        rw [hr] at hproc
        simp only [Option.map_some', Option.some.injEq] at hproc
        have hq1 : p.2.1 = p.1.1 := by rw [← hproc]
        have hq2 : p.2.2 = tf' := by rw [← hproc]
        obtain ⟨-, hsuites⟩ := remove_hidden_suites p.1.2 tf' hr
        refine ⟨hq1, by rw [hq2]; exact hsuites, ?_⟩
        intro s0 l hs0 hl hlen0
        have hlock := remove_hidden_lockstep p.1.2 s0 l hs0 hl hlen0
        rw [hlock] at hr
        rw [hq2, ← Option.some.inj hr]

/-- C3 (witness): redacting a directory holding one artifact with a hidden
second case fixes it: the resulting directory is unchanged by a second
pass. -/
theorem remove_hidden_tests_from_dir_correct_witness :
    remove_hidden_tests_from_dir [("q1.py", tf1)] = some [("q1.py", tf1)] :=
  (remove_hidden_tests_from_dir_correct [("q1.py", tf0)] [("q1.py", tf1)]
    (by decide)).1

/-- Appending an object leaves existing references unchanged. -/
theorem hGet_append_lt (h : HHeap) (v : List String) (q : HRef)
    (hq : q < h.length) : hGet (h ++ [v]) q = hGet h q := by
  induction h generalizing q with
  | nil => simp at hq
  | cons a t ih =>
    cases q with
    | zero => rfl
    | succ q' => exact ih q' (by simpa using Nat.lt_of_succ_lt_succ hq)

/-- Reading back an in-place update. -/
theorem hGet_set_self (h : HHeap) (r : HRef) (v : List String)
    (hr : r < h.length) : hGet (hSet h r v) r = v := by
  induction h generalizing r with
  | nil => simp at hr
  | cons a t ih =>
    cases r with
    | zero => rfl
    | succ r' => exact ih r' (by simpa using Nat.lt_of_succ_lt_succ hr)

/-- An in-place update leaves other references unchanged. -/
theorem hGet_set_other (h : HHeap) (r q : HRef) (v : List String)
    (hq : q ≠ r) : hGet (hSet h r v) q = hGet h q := by
  induction h generalizing r q with
  | nil => rfl
  | cons a t ih =>
    cases r with
    | zero =>
      cases q with
      | zero => exact absurd rfl hq
      | succ q' => rfl
    | succ r' =>
      cases q with
      | zero => rfl
      | succ q' => exact ih r' q' (fun he => hq (by rw [he]))

/-- Effects of the heap-model converter: the `code_lines` object ends empty,
every other pre-existing object (in particular `lines`) is untouched, the
heap only grows, and the result is the `lines` reference exactly when
`code_lines` was already empty — otherwise it is a freshly allocated
reference. -/
theorem heap_go_effects (fuel : Nat) :
    ∀ (h : HHeap) (clr lsr : HRef) (opens : List Char) (r : HRef) (h' : HHeap),
      (hGet h clr).length ≤ fuel →
      clr ≠ lsr → clr < h.length → lsr < h.length →
      str_to_doctest_heap_go fuel h clr lsr opens = some (r, h') →
      hGet h' clr = []
      ∧ (∀ q, q ≠ clr → q < h.length → hGet h' q = hGet h q)
      ∧ h.length ≤ h'.length
      ∧ (hGet h clr = [] → r = lsr ∧ h' = h)
      ∧ (hGet h clr ≠ [] → h.length ≤ r ∧ r < h'.length) := by
  induction fuel with
  | zero =>
    intro h clr lsr opens r h' hfuel hne hclr hlsr hrun
    have hempty : hGet h clr = [] :=
      List.length_eq_zero.mp (Nat.le_zero.mp hfuel)
    have hgo : str_to_doctest_heap_go 0 h clr lsr opens = some (lsr, h) := by
      conv_lhs => rw [str_to_doctest_heap_go.eq_def]
      simp only [hempty]
    rw [hgo] at hrun
    obtain ⟨hr, hh⟩ := Prod.mk.inj (Option.some.inj hrun)
    subst hr
    subst hh
    refine ⟨hempty, fun q _ _ => rfl, Nat.le_refl _, fun _ => ⟨rfl, rfl⟩, ?_⟩
    intro hno
    exact absurd hempty hno
  | succ fuel ih =>
    intro h clr lsr opens r h' hfuel hne hclr hlsr hrun
    cases hcl : hGet h clr with
    | nil =>
      have hgo : str_to_doctest_heap_go (fuel + 1) h clr lsr opens
          = some (lsr, h) := by
        conv_lhs => rw [str_to_doctest_heap_go.eq_def]
        simp only [hcl]
      rw [hgo] at hrun
      obtain ⟨hr, hh⟩ := Prod.mk.inj (Option.some.inj hrun)
      subst hr
      subst hh
      refine ⟨hcl, fun q _ _ => rfl, Nat.le_refl _, fun _ => ⟨rfl, rfl⟩, ?_⟩
      intro hno
      exact absurd rfl hno
    | cons line rest =>
      have hgo : str_to_doctest_heap_go (fuel + 1) h clr lsr opens
          = (match updateOpens opens line with
             | none => none
             | some opens' =>
               str_to_doctest_heap_go fuel
                 (hSet h clr rest ++
                   [hGet (hSet h clr rest) lsr ++
                     [(if contLine (hGet (hSet h clr rest) lsr) opens line
                       then "... " else ">>> ") ++ line]])
                 clr (hSet h clr rest).length opens') := by
        conv_lhs => rw [str_to_doctest_heap_go.eq_def]
        simp only [hcl]
      rw [hgo] at hrun
      cases hop : updateOpens opens line with
      | none =>
        rw [hop] at hrun
        exact absurd (show (none : Option (HRef × HHeap)) = some (r, h') from hrun)
          (by simp)
      | some opens' =>
        rw [hop] at hrun
        set h1 : HHeap := hSet h clr rest with hh1
        set v : List String :=
          hGet h1 lsr ++
            [(if contLine (hGet h1 lsr) opens line then "... " else ">>> ") ++ line]
          with hv
        have hh1len : h1.length = h.length := by
          rw [hh1]
          exact List.length_set h clr rest
        have hgeth2clr : hGet (h1 ++ [v]) clr = rest := by
          rw [hGet_append_lt h1 v clr (by rw [hh1len]; exact hclr), hh1,
            hGet_set_self h clr rest hclr]
        have hne2 : clr ≠ h1.length := by
          rw [hh1len]
          exact Nat.ne_of_lt hclr
        have hclr2 : clr < (h1 ++ [v]).length := by
          rw [List.length_append, List.length_singleton, hh1len]
          exact Nat.lt_succ_of_lt hclr
        have hlsr2 : h1.length < (h1 ++ [v]).length := by
          rw [List.length_append, List.length_singleton]
          exact Nat.lt_succ_self _
        have hfuel2 : (hGet (h1 ++ [v]) clr).length ≤ fuel := by
          rw [hgeth2clr]
          rw [hcl] at hfuel
          simp only [List.length_cons] at hfuel
          omega
        obtain ⟨hA, hB, hC, hD, hE⟩ :=
          ih (h1 ++ [v]) clr h1.length opens' r h' hfuel2 hne2 hclr2 hlsr2 hrun
        have hframe : ∀ q, q ≠ clr → q < h.length → hGet h' q = hGet h q := by
          intro q hq hql
          have := hB q hq
            (by rw [List.length_append, List.length_singleton, hh1len]
                exact Nat.lt_succ_of_lt hql)
          rw [this, hGet_append_lt h1 v q (by rw [hh1len]; exact hql), hh1,
            hGet_set_other h clr q rest hq]
        have hlen2 : (h1 ++ [v]).length = h.length + 1 := by
          rw [List.length_append, List.length_singleton, hh1len]
        have hC' : h.length + 1 ≤ h'.length := by rw [← hlen2]; exact hC
        refine ⟨hA, hframe, Nat.le_of_succ_le hC', ?_, ?_⟩
        · intro he
          exact absurd he (by simp)
        · intro _
          cases hrest : rest with
          | nil =>
            obtain ⟨hr1, hh'⟩ := hD (by rw [hgeth2clr, hrest])
            subst hh'
            constructor
            · rw [hr1, hh1len]
            · rw [hr1, hlen2, hh1len]
              exact Nat.lt_succ_self _
          | cons a b =>
            obtain ⟨he1, he2⟩ := hE (by rw [hgeth2clr, hrest]; simp)
            rw [hlen2] at he1
            exact ⟨Nat.le_of_succ_le he1, he2⟩

/-- C10 (amended): on distinct valid references, a successful run of the
heap-model `str_to_doctest` leaves the caller's `code_lines` object empty
and never mutates the `lines` object; the returned list is a fresh object
whenever `code_lines` was non-empty, but when `code_lines` is empty the
`lines` object itself is returned (aliased, not fresh) and the heap is
unchanged. -/
theorem str_to_doctest_heap_effects (h : HHeap) (clr lsr : HRef)
    (opens : List Char) (r : HRef) (h' : HHeap)
    (hne : clr ≠ lsr) (hclr : clr < h.length) (hlsr : lsr < h.length)
    (hrun : str_to_doctest_heap h clr lsr opens = some (r, h')) :
    hGet h' clr = []
    ∧ hGet h' lsr = hGet h lsr
    ∧ (hGet h clr ≠ [] → r ≠ lsr)
    ∧ (hGet h clr = [] → r = lsr ∧ h' = h) := by
  obtain ⟨hA, hB, hC, hD, hE⟩ :=
    heap_go_effects (hGet h clr).length h clr lsr opens r h'
      (Nat.le_refl _) hne hclr hlsr hrun
  refine ⟨hA, hB lsr (fun he => hne he.symm) hlsr, ?_, hD⟩
  intro hno he
  obtain ⟨h1, -⟩ := hE hno
  rw [he] at h1
  exact absurd h1 (Nat.not_le.mpr hlsr)

/-- C10 (counterexample): with an empty `code_lines` object (reference 0)
the function returns the `lines` object itself (reference 1), not a fresh
list — the caller's `lines` and the result are aliases. -/
theorem str_to_doctest_heap_c10_counterexample :
    str_to_doctest_heap [[], ["a"]] 0 1 [] = some (1, [[], ["a"]]) := by
  decide

/-- C10 (witness): running the heap model on a one-line `code_lines` object
empties it, leaves `lines` untouched, and returns a fresh reference. -/
theorem str_to_doctest_heap_effects_witness :
    hGet [[], [], [">>> x = 1"]] 0 = []
    ∧ hGet [[], [], [">>> x = 1"]] 1 = hGet [["x = 1"], []] 1
    ∧ (hGet [["x = 1"], []] 0 ≠ [] → (2 : HRef) ≠ 1)
    ∧ (hGet [["x = 1"], []] 0 = [] →
        (2 : HRef) = 1 ∧ ([[], [], [">>> x = 1"]] : HHeap) = [["x = 1"], []]) :=
  str_to_doctest_heap_effects [["x = 1"], []] 0 1 [] 2 [[], [], [">>> x = 1"]]
    (by decide) (by decide) (by decide) (by decide)

/-- The final check accepts exactly when no command wrote to stderr. -/
theorem checkCommands_map_ok (w : World) (cmds : List (List String)) :
    checkCommands (cmds.map (fun c => (c, w.run c))) = Except.ok ()
      ↔ ∀ c ∈ cmds, (w.run c).stderr = "" := by
  induction cmds with
  | nil => simp [checkCommands]
  | cons c rest ih =>
    by_cases hc : (w.run c).stderr = ""
    · have hred : checkCommands ((c, w.run c) :: rest.map (fun c => (c, w.run c)))
          = checkCommands (rest.map (fun c => (c, w.run c))) := by
        simp only [checkCommands]
        rw [if_neg (fun hne => hne hc)]
      rw [List.map_cons, hred, ih]
      constructor
      · intro h c' hc'
        rcases List.mem_cons.mp hc' with rfl | hmem
        · exact hc
        · exact h c' hmem
      · intro h c' hc'
        exact h c' (List.mem_cons_of_mem c hc')
    · have hred : checkCommands ((c, w.run c) :: rest.map (fun c => (c, w.run c)))
          = Except.error ("Error running " ++ String.intercalate " " c
              ++ " failed with error: " ++ (w.run c).stderr) := by
        simp only [checkCommands]
        rw [if_pos hc]
      rw [List.map_cons, hred]
      constructor
      · intro h
        exact absurd h (by simp)
      · intro h
        exact absurd (h c (List.mem_cons_self c rest)) hc

/-- When some command wrote to stderr, the final check raises the error
message naming a failing command and its stderr output. -/
theorem checkCommands_map_error (w : World) (cmds : List (List String)) :
    (∃ c ∈ cmds, (w.run c).stderr ≠ "") →
      ∃ c ∈ cmds, (w.run c).stderr ≠ ""
        ∧ checkCommands (cmds.map (fun c => (c, w.run c)))
            = Except.error ("Error running " ++ String.intercalate " " c
                ++ " failed with error: " ++ (w.run c).stderr) := by
  induction cmds with
  | nil => rintro ⟨c, hc, -⟩; simp at hc
  | cons c rest ih =>
    intro hex
    by_cases hc : (w.run c).stderr = ""
    · have hred : checkCommands ((c, w.run c) :: rest.map (fun c => (c, w.run c)))
          = checkCommands (rest.map (fun c => (c, w.run c))) := by
        simp only [checkCommands]
        rw [if_neg (fun hne => hne hc)]
      obtain ⟨c', hc', hne⟩ := hex
      rcases List.mem_cons.mp hc' with rfl | hmem
      · exact absurd hc hne
      · obtain ⟨c'', hmem'', hne'', heq''⟩ := ih ⟨c', hmem, hne⟩
        exact ⟨c'', List.mem_cons_of_mem c hmem'', hne'',
          by rw [List.map_cons, hred]; exact heq''⟩
    · refine ⟨c, List.mem_cons_self c rest, hc, ?_⟩
      rw [List.map_cons]
      simp only [checkCommands]
      rw [if_pos hc]

/-- C4 (counterexample): converting `["if x:", "    y = 1"]` does not yield
`[">>> if x:", "... y = 1"]` — the continuation marker is prefixed to the
line with its indentation kept. -/
theorem str_to_doctest_c4_counterexample :
    str_to_doctest ["if x:", "    y = 1"] [] [] ≠
      some [">>> if x:", "... y = 1"] := by
  decide

/-- C4 (amended): converting `["if x:", "    y = 1"]` yields
`[">>> if x:", "...     y = 1"]` — the first line gets the primary prompt and
the indented second line gets the continuation marker prefixed to the intact
line. -/
theorem str_to_doctest_c4_actual :
    str_to_doctest ["if x:", "    y = 1"] [] [] =
      some [">>> if x:", "...     y = 1"] := by
  decide

/-- The error-check step of `grade_assignments` abstracted: given that the
result pair equals the final match on `checkCommands` over the checked
command list, with a trace containing the same commands, the run succeeds
with the grades data frame iff no checked command wrote to stderr, and
otherwise raises the error naming a failing command and its stderr. -/
theorem grade_match_spec (w : World) (cmds trace : List (List String)) (df : DataFrame)
    (p : Except String DataFrame × List (List String))
    (hsub : ∀ c, c ∈ cmds ↔ c ∈ trace)
    (hp : p = (match checkCommands (cmds.map fun c => (c, w.run c)) with
      | Except.error e => (Except.error e, trace)
      | Except.ok _ => (Except.ok df, trace))) :
    p.2 = trace
    ∧ ((∀ c ∈ p.2, (w.run c).stderr = "") → p.1 = Except.ok df)
    ∧ ((∃ c ∈ p.2, (w.run c).stderr ≠ "") →
        ∃ c ∈ p.2, (w.run c).stderr ≠ ""
          ∧ p.1 = Except.error ("Error running " ++ String.intercalate " " c
              ++ " failed with error: " ++ (w.run c).stderr)) := by
  cases hchk : checkCommands (cmds.map fun c => (c, w.run c)) with
  | ok u =>
    rw [hchk] at hp
    refine ⟨by rw [hp], fun _ => by rw [hp], fun hex => ?_⟩
    obtain ⟨c, hmem, hne⟩ := hex
    have hmem' : c ∈ cmds := (hsub c).mpr (by rw [hp] at hmem; exact hmem)
    obtain ⟨c', hc', hne', heq'⟩ := checkCommands_map_error w cmds ⟨c, hmem', hne⟩
    rw [hchk] at heq'
    exact absurd heq' (by simp)
  | error e =>
    rw [hchk] at hp
    have h2 : p.2 = trace := by rw [hp]
    refine ⟨h2, fun hall => ?_, fun hex => ?_⟩
    · have hall' : ∀ c ∈ cmds, (w.run c).stderr = "" := by
        intro c hc
        exact hall c (by rw [h2]; exact (hsub c).mp hc)
      have := (checkCommands_map_ok w cmds).mpr hall'
      rw [hchk] at this
      exact absurd this (by simp)
    · obtain ⟨c, hmem, hne⟩ := hex
      have hmem' : c ∈ cmds := (hsub c).mpr (by rw [h2] at hmem; exact hmem)
      obtain ⟨c', hc', hne', heq'⟩ := checkCommands_map_error w cmds ⟨c, hmem', hne⟩
      have he : e = "Error running " ++ String.intercalate " " c'
          ++ " failed with error: " ++ (w.run c').stderr := by
        have := hchk.symm.trans heq'
        exact Except.error.inj this
      refine ⟨c', by rw [h2]; exact (hsub c').mp hc', hne', ?_⟩
      rw [hp, he]

/-- C8 (counterexample): in a world where every command is silent on stderr
but the grade command exits with code 1, `grade_assignments` still returns
the grades data frame: exit codes are never consulted, so a non-zero exit
does not abort the batch. -/
theorem grade_assignments_c8_counterexample :
    (w0.run ["docker", "exec", "-t", "c1", "python3", "-m",
        "otter.grade", "/home/notebooks"]).returncode ≠ 0
    ∧ ["docker", "exec", "-t", "c1", "python3", "-m",
        "otter.grade", "/home/notebooks"]
        ∈ (grade_assignments w0 "t" "n" "0" "img" false false none false).2
    ∧ (grade_assignments w0 "t" "n" "0" "img" false false none false).1
        = Except.ok { manual := [], body := "" } := by
  decide

/-- C8 (amended): `grade_assignments` checks only the error streams of its
orchestration commands, never their exit codes.  The trace always ends with
the csv cleanup, `docker stop` and `docker rm` commands (cleanup precedes the
check); if every executed command left stderr empty the grades data frame is
returned, and if some executed command wrote to stderr an exception is raised
naming that command and its stderr output. -/
theorem grade_assignments_stderr_only (w : World) (td nd id image : String)
    (reqs : Option String) (scripts : Bool) (df : DataFrame)
    (hcsv : w.readCsv ("./grades" ++ id ++ ".csv") = Except.ok df) :
    (∃ pre, (grade_assignments w td nd id image false false reqs scripts).2
        = pre ++ [["rm", "./grades" ++ id ++ ".csv"],
            ["docker", "stop",
              (w.run ["docker", "run", "-d", "-it", image]).stdout.dropRight 1],
            ["docker", "rm",
              (w.run ["docker", "run", "-d", "-it", image]).stdout.dropRight 1]])
    ∧ ((∀ c ∈ (grade_assignments w td nd id image false false reqs scripts).2,
          (w.run c).stderr = "") →
        (grade_assignments w td nd id image false false reqs scripts).1
          = Except.ok df)
    ∧ ((∃ c ∈ (grade_assignments w td nd id image false false reqs scripts).2,
          (w.run c).stderr ≠ "") →
        ∃ c ∈ (grade_assignments w td nd id image false false reqs scripts).2,
          (w.run c).stderr ≠ ""
          ∧ (grade_assignments w td nd id image false false reqs scripts).1
              = Except.error ("Error running " ++ String.intercalate " " c
                  ++ " failed with error: " ++ (w.run c).stderr)) := by
  cases reqs with
  | none =>
    have hga : grade_assignments w td nd id image false false none scripts
        = (match checkCommands
            (([["docker", "run", "-d", "-it", image],
               ["docker", "cp", nd, (w.run ["docker", "run", "-d", "-it", image]).stdout.dropRight 1 ++ ":/home/notebooks/"],
               ["docker", "cp", td, (w.run ["docker", "run", "-d", "-it", image]).stdout.dropRight 1 ++ ":/home/tests/"],
               ["docker", "exec", "-t", (w.run ["docker", "run", "-d", "-it", image]).stdout.dropRight 1, "python3", "-m", "otter.grade", "/home/notebooks"] ++ (if scripts then ["--scripts"] else []),
               ["docker", "cp", (w.run ["docker", "run", "-d", "-it", image]).stdout.dropRight 1 ++ ":/home/notebooks/grades.csv", "./grades" ++ id ++ ".csv"],
               ["rm", "./grades" ++ id ++ ".csv"],
               ["docker", "stop", (w.run ["docker", "run", "-d", "-it", image]).stdout.dropRight 1],
               ["docker", "rm", (w.run ["docker", "run", "-d", "-it", image]).stdout.dropRight 1]] : List (List String)).map (fun c => (c, w.run c))) with
           | Except.error e => (Except.error e,
               [["docker", "run", "-d", "-it", image],
                ["docker", "cp", nd, (w.run ["docker", "run", "-d", "-it", image]).stdout.dropRight 1 ++ ":/home/notebooks/"],
                ["docker", "cp", td, (w.run ["docker", "run", "-d", "-it", image]).stdout.dropRight 1 ++ ":/home/tests/"],
                ["docker", "exec", "-t", (w.run ["docker", "run", "-d", "-it", image]).stdout.dropRight 1, "python3", "-m", "otter.grade", "/home/notebooks"] ++ (if scripts then ["--scripts"] else []),
                ["docker", "cp", (w.run ["docker", "run", "-d", "-it", image]).stdout.dropRight 1 ++ ":/home/notebooks/grades.csv", "./grades" ++ id ++ ".csv"],
                ["rm", "./grades" ++ id ++ ".csv"],
                ["docker", "stop", (w.run ["docker", "run", "-d", "-it", image]).stdout.dropRight 1],
                ["docker", "rm", (w.run ["docker", "run", "-d", "-it", image]).stdout.dropRight 1]])
           | Except.ok _ => (Except.ok df,
               [["docker", "run", "-d", "-it", image],
                ["docker", "cp", nd, (w.run ["docker", "run", "-d", "-it", image]).stdout.dropRight 1 ++ ":/home/notebooks/"],
                ["docker", "cp", td, (w.run ["docker", "run", "-d", "-it", image]).stdout.dropRight 1 ++ ":/home/tests/"],
                ["docker", "exec", "-t", (w.run ["docker", "run", "-d", "-it", image]).stdout.dropRight 1, "python3", "-m", "otter.grade", "/home/notebooks"] ++ (if scripts then ["--scripts"] else []),
                ["docker", "cp", (w.run ["docker", "run", "-d", "-it", image]).stdout.dropRight 1 ++ ":/home/notebooks/grades.csv", "./grades" ++ id ++ ".csv"],
                ["rm", "./grades" ++ id ++ ".csv"],
                ["docker", "stop", (w.run ["docker", "run", "-d", "-it", image]).stdout.dropRight 1],
                ["docker", "rm", (w.run ["docker", "run", "-d", "-it", image]).stdout.dropRight 1]])) := by
      unfold grade_assignments
      rw [hcsv]
      rfl
    obtain ⟨htr, hok, herr⟩ := grade_match_spec w _ _ df _ (fun c => Iff.rfl) hga
    exact ⟨⟨[["docker", "run", "-d", "-it", image],
        ["docker", "cp", nd, (w.run ["docker", "run", "-d", "-it", image]).stdout.dropRight 1 ++ ":/home/notebooks/"],
        ["docker", "cp", td, (w.run ["docker", "run", "-d", "-it", image]).stdout.dropRight 1 ++ ":/home/tests/"],
        ["docker", "exec", "-t", (w.run ["docker", "run", "-d", "-it", image]).stdout.dropRight 1, "python3", "-m", "otter.grade", "/home/notebooks"] ++ (if scripts then ["--scripts"] else []),
        ["docker", "cp", (w.run ["docker", "run", "-d", "-it", image]).stdout.dropRight 1 ++ ":/home/notebooks/grades.csv", "./grades" ++ id ++ ".csv"]],
      by rw [htr]; rfl⟩, hok, herr⟩
  | some r =>
    have hga : grade_assignments w td nd id image false false (some r) scripts
        = (match checkCommands
            (([["docker", "run", "-d", "-it", image],
               ["docker", "cp", nd, (w.run ["docker", "run", "-d", "-it", image]).stdout.dropRight 1 ++ ":/home/notebooks/"],
               ["docker", "cp", td, (w.run ["docker", "run", "-d", "-it", image]).stdout.dropRight 1 ++ ":/home/tests/"],
               ["docker", "exec", "-t", (w.run ["docker", "run", "-d", "-it", image]).stdout.dropRight 1, "python3", "-m", "otter.grade", "/home/notebooks"] ++ (if scripts then ["--scripts"] else []),
               ["docker", "cp", (w.run ["docker", "run", "-d", "-it", image]).stdout.dropRight 1 ++ ":/home/notebooks/grades.csv", "./grades" ++ id ++ ".csv"],
               ["rm", "./grades" ++ id ++ ".csv"],
               ["docker", "stop", (w.run ["docker", "run", "-d", "-it", image]).stdout.dropRight 1],
               ["docker", "rm", (w.run ["docker", "run", "-d", "-it", image]).stdout.dropRight 1],
               ["docker", "cp", r, (w.run ["docker", "run", "-d", "-it", image]).stdout.dropRight 1 ++ ":/home"],
               ["docker", "exec", "-t", (w.run ["docker", "run", "-d", "-it", image]).stdout.dropRight 1, "pip3", "install", "-r", "/home/requirements.txt"]] : List (List String)).map (fun c => (c, w.run c))) with
           | Except.error e => (Except.error e,
               [["docker", "run", "-d", "-it", image],
                ["docker", "cp", nd, (w.run ["docker", "run", "-d", "-it", image]).stdout.dropRight 1 ++ ":/home/notebooks/"],
                ["docker", "cp", td, (w.run ["docker", "run", "-d", "-it", image]).stdout.dropRight 1 ++ ":/home/tests/"],
                ["docker", "cp", r, (w.run ["docker", "run", "-d", "-it", image]).stdout.dropRight 1 ++ ":/home"],
                ["docker", "exec", "-t", (w.run ["docker", "run", "-d", "-it", image]).stdout.dropRight 1, "pip3", "install", "-r", "/home/requirements.txt"],
                ["docker", "exec", "-t", (w.run ["docker", "run", "-d", "-it", image]).stdout.dropRight 1, "python3", "-m", "otter.grade", "/home/notebooks"] ++ (if scripts then ["--scripts"] else []),
                ["docker", "cp", (w.run ["docker", "run", "-d", "-it", image]).stdout.dropRight 1 ++ ":/home/notebooks/grades.csv", "./grades" ++ id ++ ".csv"],
                ["rm", "./grades" ++ id ++ ".csv"],
                ["docker", "stop", (w.run ["docker", "run", "-d", "-it", image]).stdout.dropRight 1],
                ["docker", "rm", (w.run ["docker", "run", "-d", "-it", image]).stdout.dropRight 1]])
           | Except.ok _ => (Except.ok df,
               [["docker", "run", "-d", "-it", image],
                ["docker", "cp", nd, (w.run ["docker", "run", "-d", "-it", image]).stdout.dropRight 1 ++ ":/home/notebooks/"],
                ["docker", "cp", td, (w.run ["docker", "run", "-d", "-it", image]).stdout.dropRight 1 ++ ":/home/tests/"],
                ["docker", "cp", r, (w.run ["docker", "run", "-d", "-it", image]).stdout.dropRight 1 ++ ":/home"],
                ["docker", "exec", "-t", (w.run ["docker", "run", "-d", "-it", image]).stdout.dropRight 1, "pip3", "install", "-r", "/home/requirements.txt"],
                ["docker", "exec", "-t", (w.run ["docker", "run", "-d", "-it", image]).stdout.dropRight 1, "python3", "-m", "otter.grade", "/home/notebooks"] ++ (if scripts then ["--scripts"] else []),
                ["docker", "cp", (w.run ["docker", "run", "-d", "-it", image]).stdout.dropRight 1 ++ ":/home/notebooks/grades.csv", "./grades" ++ id ++ ".csv"],
                ["rm", "./grades" ++ id ++ ".csv"],
                ["docker", "stop", (w.run ["docker", "run", "-d", "-it", image]).stdout.dropRight 1],
                ["docker", "rm", (w.run ["docker", "run", "-d", "-it", image]).stdout.dropRight 1]])) := by
      unfold grade_assignments
      rw [hcsv]
      rfl
    obtain ⟨htr, hok, herr⟩ := grade_match_spec w _ _ df _
      (fun c => by simp only [List.mem_cons, List.not_mem_nil]; tauto) hga
    exact ⟨⟨[["docker", "run", "-d", "-it", image],
        ["docker", "cp", nd, (w.run ["docker", "run", "-d", "-it", image]).stdout.dropRight 1 ++ ":/home/notebooks/"],
        ["docker", "cp", td, (w.run ["docker", "run", "-d", "-it", image]).stdout.dropRight 1 ++ ":/home/tests/"],
        ["docker", "cp", r, (w.run ["docker", "run", "-d", "-it", image]).stdout.dropRight 1 ++ ":/home"],
        ["docker", "exec", "-t", (w.run ["docker", "run", "-d", "-it", image]).stdout.dropRight 1, "pip3", "install", "-r", "/home/requirements.txt"],
        ["docker", "exec", "-t", (w.run ["docker", "run", "-d", "-it", image]).stdout.dropRight 1, "python3", "-m", "otter.grade", "/home/notebooks"] ++ (if scripts then ["--scripts"] else []),
        ["docker", "cp", (w.run ["docker", "run", "-d", "-it", image]).stdout.dropRight 1 ++ ":/home/notebooks/grades.csv", "./grades" ++ id ++ ".csv"]],
      by rw [htr]; rfl⟩, hok, herr⟩

/-- C8 (witness): in a world where `docker stop` writes `boom` to stderr,
the amended theorem applies with its csv hypothesis discharged. -/
theorem grade_assignments_stderr_only_witness :
    w1.readCsv ("./grades" ++ "0" ++ ".csv") = Except.ok { manual := [], body := "" }
    ∧ ((∃ pre, (grade_assignments w1 "t" "n" "0" "img" false false none false).2
          = pre ++ [["rm", "./grades" ++ "0" ++ ".csv"],
              ["docker", "stop",
                (w1.run ["docker", "run", "-d", "-it", "img"]).stdout.dropRight 1],
              ["docker", "rm",
                (w1.run ["docker", "run", "-d", "-it", "img"]).stdout.dropRight 1]])
        ∧ ((∀ c ∈ (grade_assignments w1 "t" "n" "0" "img" false false none false).2,
              (w1.run c).stderr = "") →
            (grade_assignments w1 "t" "n" "0" "img" false false none false).1
              = Except.ok { manual := [], body := "" })
        ∧ ((∃ c ∈ (grade_assignments w1 "t" "n" "0" "img" false false none false).2,
              (w1.run c).stderr ≠ "") →
            ∃ c ∈ (grade_assignments w1 "t" "n" "0" "img" false false none false).2,
              (w1.run c).stderr ≠ ""
              ∧ (grade_assignments w1 "t" "n" "0" "img" false false none false).1
                  = Except.error ("Error running " ++ String.intercalate " " c
                      ++ " failed with error: " ++ (w1.run c).stderr))) :=
  ⟨rfl, grade_assignments_stderr_only w1 "t" "n" "0" "img" none false
    { manual := [], body := "" } rfl⟩

end Otter
